import Mathlib

/-!
Verification of the post-explainer backend pipeline.

Shallow embedding of the services under `backend/`: the cache
(`services/cache.py`), the query extractor (`services/query_extractor.py`),
the search orchestrator (`services/search.py`), the multi-model LLM
provider (`services/llm.py`), the prompt builder (`prompts.py`) and the
pipeline orchestrator (`services/explainer.py`, `api/routes.py`).
External I/O (HTTP calls to search providers, LLM APIs, image hosts) is
modelled by oracle functions passed in as parameters; machine floats
(search scores) are modelled as rationals; Python exceptions are modelled
as `Except`/`Option` values carrying the exception message.
-/

/-- Decidable equality for `Except` values, used to evaluate concrete
pipeline outcomes. -/
instance {ε α : Type} [DecidableEq ε] [DecidableEq α] : DecidableEq (Except ε α) := fun a b =>
  match a, b with
  | Except.ok x, Except.ok y => decidable_of_iff (x = y) (by simp)
  | Except.error x, Except.error y => decidable_of_iff (x = y) (by simp)
  | Except.ok _, Except.error _ => isFalse (by simp)
  | Except.error _, Except.ok _ => isFalse (by simp)

/-! ## Python string primitives -/

/-- Python whitespace predicate (`str.strip`, regex `\s`): space, tab,
newline, carriage return, vertical tab and form feed. -/
def pyIsSpace (c : Char) : Bool :=
  c.isWhitespace || c == '\x0b' || c == '\x0c'

/-- Python `str.strip()` on a character list: drop whitespace from both ends. -/
def pyStripList (l : List Char) : List Char :=
  ((l.dropWhile pyIsSpace).reverse.dropWhile pyIsSpace).reverse

/-- Python `str.strip()`. -/
def pyStrip (s : String) : String :=
  String.mk (pyStripList s.data)

/-- Python `str.lower()`: lowercase each character. -/
def pyLower (s : String) : String :=
  String.mk (s.data.map Char.toLower)

/-- Python `str.split(sep)` for a single-character separator, on a
character list: split at every occurrence of the separator, keeping
empty segments. -/
def splitListOnChar (sep : Char) : List Char → List (List Char)
  | [] => [[]]
  | c :: rest =>
    match splitListOnChar sep rest with
    | [] => [[c]]
    | g :: gs => if c == sep then [] :: g :: gs else (c :: g) :: gs

/-- Python `str.split('\n')`. -/
def splitLines (s : String) : List String :=
  (splitListOnChar '\n' s.data).map String.mk

/-- Python `\w` word character: letter, digit or underscore (ASCII). -/
def isWordChar (c : Char) : Bool :=
  c.isAlphanum || c == '_'

/-- Python `str(x)` applied to an `Optional[str]`: `None` prints as "None". -/
def pyStrOfOpt (s : Option String) : String :=
  match s with
  | none => "None"
  | some t => t

/-! ## Data model

Modelled from the spec: `models/schemas.py` is not included under `src/`;
the field shapes follow section 3 of the spec and the way the services
construct and read these records (`SearchResult.score` is an optional
float, modelled as an optional rational; `snippet` is optional because the
services test it for Python truthiness before slicing). -/

/-- A normalized result returned by a search provider (spec section 3). -/
structure SearchResult where
  title : String
  url : String
  snippet : Option String
  score : Option ℚ
deriving DecidableEq

/-- A source surfaced to the caller, derived from a `SearchResult`
(spec section 3). -/
structure Source where
  id : Nat
  title : String
  url : String
  snippet : Option String
deriving DecidableEq

/-- The response of the explain pipeline (spec section 3). -/
structure ExplainResponse where
  bullets : List String
  sources : List Source
  cached : Bool
deriving DecidableEq

/-- The value stored in the cache by `PostExplainer.explain`:
`{"bullets": bullets, "sources": [s.model_dump() for s in sources]}`. -/
structure CachedValue where
  bullets : List String
  sources : List Source
deriving DecidableEq

/-! ## Cache (`services/cache.py`) -/

/-- The in-memory cache `CacheService._cache`: a finite map from key to
`(value, timestamp)`, modelled as an association list.  Timestamps are
`datetime.now()` instants modelled as integers. -/
abbrev Cache := List (String × CachedValue × Int)

/-- `CacheService._generate_key`: the source computes
`"explain:" + sha256(text.lower().strip())[:16]`.  The digest is a
deterministic function of the normalized text, so equal normalized texts
always produce equal keys; we model the key as the namespace tag followed
by the normalized text itself, which preserves exactly that equality (no
claim relies on hash collisions between distinct normalized texts). -/
def generateKey (text : String) : String :=
  "explain:" ++ pyStrip (pyLower text)

/-- `CacheService.get`: look the key up; a missing key is a miss; an entry
older than `ttl` is a miss and is deleted (lazy expiry).  Returns the
looked-up value together with the possibly-updated store. -/
def cacheGet (ttl now : Int) (c : Cache) (text : String) : Option CachedValue × Cache :=
  let key := generateKey text
  match c.find? (fun e => e.1 == key) with
  | none => (none, c)
  | some e =>
    if now - e.2.2 > ttl then (none, c.eraseP (fun x => x.1 == key))
    else (some e.2.1, c)

/-- `CacheService.set`: store `(value, now)` under the key, replacing any
existing entry for that key (Python dict assignment keeps the position of
an existing key and appends a new one). -/
def cacheSet (now : Int) (c : Cache) (text : String) (v : CachedValue) : Cache :=
  let key := generateKey text
  if c.any (fun e => e.1 == key) then
    c.map (fun e => if e.1 == key then (key, v, now) else e)
  else c ++ [(key, v, now)]

/-! ## Response parsing (`PostExplainer._parse_bullets`) -/

/-- The bullet marker characters of the regex `^[•\-\*]\s*`. -/
def bulletMarkerChars : List Char := ['•', '-', '*']

/-- `re.sub(r'^[•\-\*]\s*', '', line)`: strip one leading bullet marker
and the whitespace after it. -/
def stripBulletMarker (l : List Char) : List Char :=
  match l with
  | [] => []
  | c :: rest =>
    if bulletMarkerChars.contains c then rest.dropWhile pyIsSpace
    else c :: rest

/-- `re.sub(r'^\d+[\.\)]\s*', '', cleaned)`: strip a leading digit run
followed by `.` or `)` and trailing whitespace.  The greedy `\d+` cannot
backtrack into a successful match, so the maximal digit prefix is the
only candidate. -/
def stripNumberMarker (l : List Char) : List Char :=
  let ds := l.takeWhile Char.isDigit
  let rest := l.dropWhile Char.isDigit
  match ds, rest with
  | [], _ => l
  | _ :: _, p :: rest2 =>
    if p == '.' || p == ')' then rest2.dropWhile pyIsSpace else l
  | _ :: _, [] => l

/-- One line of `_parse_bullets`: strip the bullet marker, then the
numbering marker (the source applies the two substitutions in this
order). -/
def cleanBulletLine (line : String) : String :=
  String.mk (stripNumberMarker (stripBulletMarker line.data))

/-- The surviving lines of `_parse_bullets`, before the fallback and the
truncation: split the stripped response on newlines, strip each line,
skip empty lines, clean markers and keep lines whose cleaned form is
non-empty and longer than 10 characters. -/
def bulletCandidates (raw : String) : List String :=
  (splitLines (pyStrip raw)).filterMap (fun l =>
    let line := pyStrip l
    if line == "" then none
    else
      let cleaned := cleanBulletLine line
      if cleaned != "" && cleaned.length > 10 then some cleaned else none)

/-- `PostExplainer._parse_bullets`: the surviving lines, or the stripped
raw response as a single bullet when nothing survives and the raw
response is non-blank; truncated to 5 bullets. -/
def parseBullets (raw : String) : List String :=
  let bullets :=
    if bulletCandidates raw == [] && pyStrip raw != "" then [pyStrip raw]
    else bulletCandidates raw
  bullets.take 5

/-! ## Citation scanning (`re.findall(r'\[(\d+)\]', response)`) -/

/-- Numeric value of a decimal digit string (`int(m)` on the captured
group, which matches `\d+`). -/
def digitsVal (ds : List Char) : Nat :=
  ds.foldl (fun n c => n * 10 + (c.toNat - 48)) 0

/-- Left-to-right scan for the non-overlapping matches of `\[(\d+)\]`:
at an opening bracket, read the maximal digit run; a run of at least one
digit immediately closed by `]` is a match and scanning resumes after the
`]`; otherwise scanning resumes after the opening bracket (digit runs
cannot contain `[`, so no match start is skipped).  `fuel` bounds the
recursion and is instantiated with the length of the list. -/
def scanCitationsAux (fuel : Nat) (l : List Char) : List Nat :=
  match fuel with
  | 0 => []
  | fuel + 1 =>
    match l with
    | [] => []
    | c :: rest =>
      if c == '[' then
        let ds := rest.takeWhile Char.isDigit
        match rest.dropWhile Char.isDigit with
        | ']' :: rest2 =>
          if ds == [] then scanCitationsAux fuel rest
          else digitsVal ds :: scanCitationsAux fuel rest2
        | _ => scanCitationsAux fuel rest
      else scanCitationsAux fuel rest

/-- `re.findall(r'\[(\d+)\]', response)` converted to integers, in match
order (the source then takes the set; we use list membership). -/
def findCitations (s : String) : List Nat :=
  scanCitationsAux s.data.length s.data

/-! ## Source filtering (`PostExplainer._build_sources`) -/

/-- `result.snippet[:200] if result.snippet else None`: an absent or
empty snippet yields `None` (Python truthiness); otherwise the first 200
characters. -/
def truncSnippet (s : Option String) : Option String :=
  match s with
  | none => none
  | some t => if t == "" then none else some (String.mk (t.data.take 200))

/-- The `Source` record built by `_build_sources` for the 1-indexed
result `r` at citation index `i`. -/
def mkSource (i : Nat) (r : SearchResult) : Source :=
  { id := i, title := r.title, url := r.url, snippet := truncSnippet r.snippet }

/-- `PostExplainer._build_sources`: keep the `i`-th (1-indexed) search
result exactly when `i` is cited in the response or `i ≤ 3`, preserving
order and truncating snippets to 200 characters. -/
def buildSources (results : List SearchResult) (response : String) : List Source :=
  let citations := findCitations response
  results.enum.filterMap (fun p =>
    let i := p.1 + 1
    if citations.contains i || decide (i ≤ 3) then some (mkSource i p.2)
    else none)

/-! ## Prompt builder (`prompts.py`) -/

/-- The fixed text of `EXPLANATION_PROMPT` before the `{post_text}`
placeholder (the placeholder is surrounded by double quotes in the
template). -/
def promptHead : String :=
  "You are explaining a social media post to someone who is unfamiliar with its context or references.\n\nORIGINAL POST:\n\""

/-- The fixed template text between the `{post_text}` and
`{search_context}` placeholders. -/
def promptMid : String :=
  "\"\n\nSEARCH RESULTS FOR CONTEXT:\n"

/-- The fixed template text after the `{search_context}` placeholder. -/
def promptTail : String :=
  "\n\nINSTRUCTIONS:\n1. Generate 3-5 bullet points explaining what this post is about\n2. Each bullet should be concise (1-2 sentences max)\n3. Focus on:\n   - What is being referenced? (terms, people, events, memes)\n   - Why does it matter or why is it interesting?\n   - Key background context needed to understand the post\n4. Add citation numbers [1], [2], etc. at the end of statements, referencing the sources above\n5. Only include information that is supported by the search results\n6. If search results don\x27t provide enough context, acknowledge this honestly\n\nRESPONSE FORMAT:\nReturn ONLY the bullet points in this exact format:\n• [First explanation point] [1]\n• [Second explanation point] [2]  \n• [Third explanation point] [1][3]\n(etc.)\n\nDo NOT include any preamble, headers, or additional text. Start directly with the first bullet point."

/-- One numbered context block of `build_explanation_prompt`:
`f"[{i}] {title}\n    URL: {url}\n    Content: {snippet}"` (an absent
snippet prints as "None" under Python string formatting). -/
def formatContextPart (i : Nat) (r : SearchResult) : String :=
  "[" ++ toString i ++ "] " ++ r.title ++ "\n    URL: " ++ r.url ++
    "\n    Content: " ++ pyStrOfOpt r.snippet

/-- `build_explanation_prompt`: the fixed template instantiated with the
post text and the numbered context blocks joined by blank lines, or the
literal no-results marker when there are no results. -/
def buildExplanationPrompt (postText : String) (results : List SearchResult) : String :=
  let contextParts := results.enum.map (fun p => formatContextPart (p.1 + 1) p.2)
  let searchContext :=
    if contextParts == [] then "No relevant search results found."
    else String.intercalate ("\n\n") contextParts
  promptHead ++ postText ++ promptMid ++ searchContext ++ promptTail

/-! ## Query extraction (`services/query_extractor.py`) -/

/-- `re.split(r'[.!?]', text)[0]`: the prefix of the text before the
first sentence terminator. -/
def firstSentencePart (l : List Char) : List Char :=
  l.takeWhile (fun c => !(c == '.' || c == '!' || c == '?'))

/-- Quote characters of the regex `["\']([^"\']+)["\']` (either quote
kind may open or close a phrase). -/
def isQuoteChar (c : Char) : Bool :=
  c == '"' || c == Char.ofNat 39

/-- One step of the left-to-right scan for `["\']([^"\']+)["\']`: outside
a phrase a quote opens one; inside a phrase a quote closes it when at
least one character was read (the regex requires one or more non-quote
characters) and otherwise restarts the phrase at this quote, exactly as
the regex engine would retry from the adjacent quote. -/
def quoteStep (st : Option (List Char) × List (List Char)) (c : Char) :
    Option (List Char) × List (List Char) :=
  match st.1 with
  | none => if isQuoteChar c then (some [], st.2) else (none, st.2)
  | some ds =>
    if isQuoteChar c then
      if ds == [] then (some [], st.2) else (none, st.2 ++ [ds])
    else (some (ds ++ [c]), st.2)

/-- `re.findall(r'["\']([^"\']+)["\'], text)`: the captured phrases of
the non-overlapping matches, in order; an unclosed trailing phrase is
discarded. -/
def quotedPhrases (text : String) : List String :=
  ((text.data.foldl quoteStep (none, [])).2).map String.mk

/-- One step of the scan for `marker(\w+)` (`#(\w+)` for hashtags,
`@(\w+)` for mentions): the marker starts a token; word characters
extend it; any other character ends it, a token being emitted when it
captured at least one word character. -/
def tagStep (marker : Char) (st : Option (List Char) × List (List Char)) (c : Char) :
    Option (List Char) × List (List Char) :=
  match st.1 with
  | none => if c == marker then (some [], st.2) else (none, st.2)
  | some ds =>
    if isWordChar c then (some (ds ++ [c]), st.2)
    else
      let emitted := if ds == [] then st.2 else st.2 ++ [ds]
      if c == marker then (some [], emitted) else (none, emitted)

/-- `re.findall(marker + r'(\w+)', text)`: the captured tokens in match
order, flushing a token still open at the end of the text. -/
def tagMatches (marker : Char) (text : String) : List (List Char) :=
  let r := text.data.foldl (tagStep marker) (none, [])
  match r.1 with
  | some ds => if ds == [] then r.2 else r.2 ++ [ds]
  | none => r.2

/-- Parse `[A-Z][a-z]+` at the head of the list: an uppercase letter
followed by at least one lowercase letter; returns the word and the
remainder. -/
def capWordStart (l : List Char) : Option (List Char × List Char) :=
  match l with
  | [] => none
  | c :: rest =>
    if c.isUpper then
      let lowers := rest.takeWhile Char.isLower
      if lowers == [] then none
      else some (c :: lowers, rest.dropWhile Char.isLower)
    else none

/-- Greedy parse of `(?:\s+[A-Z][a-z]+)*` segments: each segment is a
non-empty whitespace gap followed by a capitalized word; returns the
segments (gap and word concatenated, as the regex match consumes them)
and the remainder.  `fuel` bounds the recursion and is instantiated with
the length of the list. -/
def capExtend (fuel : Nat) (l : List Char) : List (List Char) × List Char :=
  match fuel with
  | 0 => ([], l)
  | fuel + 1 =>
    let gap := l.takeWhile pyIsSpace
    let rest := l.dropWhile pyIsSpace
    if gap == [] then ([], l)
    else
      match capWordStart rest with
      | none => ([], l)
      | some (w, rest2) =>
        let r := capExtend fuel rest2
        ((gap ++ w) :: r.1, r.2)

/-- Attempt the regex `\b([A-Z][a-z]+(?:\s+[A-Z][a-z]+)+)\b` at the head
of the list (the leading `\b` has already been checked by the caller):
parse the first word, extend greedily; at least two words are required;
if a word character follows the final word the trailing `\b` fails and
the engine backtracks by one repetition, which always restores the
boundary because the dropped word was preceded by whitespace.  Shrinking
a word instead can never restore the boundary, since the character after
a shortened `[a-z]+` run is a word character. -/
def tryCapPhrase (l : List Char) : Option (List Char × List Char) :=
  match capWordStart l with
  | none => none
  | some (w1, rest1) =>
    let ext := capExtend rest1.length rest1
    let segs := ext.1
    let rest := ext.2
    if segs == [] then none
    else
      let boundaryOk := match rest with | [] => true | c :: _ => !(isWordChar c)
      if boundaryOk then some (w1 ++ segs.flatten, rest)
      else if segs.length ≥ 2 then
        some (w1 ++ segs.dropLast.flatten, (segs.getLast?.getD []) ++ rest)
      else none

/-- Left-to-right scan for the non-overlapping matches of
`\b([A-Z][a-z]+(?:\s+[A-Z][a-z]+)+)\b`: a match may only start at an
uppercase letter not preceded by a word character; after a failed
attempt scanning resumes at the next character; after a match it resumes
at the remainder (whose preceding character, the last letter of the
phrase or of the dropped word boundary, is tracked through `prevWord`).
`fuel` bounds the recursion and is instantiated with the length of the
list. -/
def capPhrasesAux (fuel : Nat) (prevWord : Bool) (l : List Char) : List (List Char) :=
  match fuel with
  | 0 => []
  | fuel + 1 =>
    match l with
    | [] => []
    | c :: rest =>
      if c.isUpper && !prevWord then
        match tryCapPhrase (c :: rest) with
        | some (phrase, rest2) => phrase :: capPhrasesAux fuel true rest2
        | none => capPhrasesAux fuel (isWordChar c) rest
      else capPhrasesAux fuel (isWordChar c) rest

/-- `re.findall(r'\b([A-Z][a-z]+(?:\s+[A-Z][a-z]+)+)\b', text)`: the
sequences of two or more consecutive capitalized words, in match
order. -/
def capPhrases (text : String) : List (List Char) :=
  capPhrasesAux text.data.length false text.data

/-- One step of the final deduplication of `extract_search_queries`:
`acc.1` is the `seen` set of lowercased stripped keys, `acc.2` the kept
queries; a query is kept when its key is unseen and longer than 3
characters. -/
def dedupQueriesStep (acc : List String × List String) (q : String) :
    List String × List String :=
  let key := pyStrip (pyLower q)
  if !(acc.1.contains key) && key.length > 3 then (acc.1 ++ [key], acc.2 ++ [q])
  else acc

/-- `extract_search_queries`: candidate queries are, in order, the
trimmed post (or its first sentence, or its first 200 characters), up to
two quoted phrases longer than 3 characters not already present, the
first three hashtags joined by spaces if not already present, up to two
capitalized phrases longer than 5 characters not already present, and
one mention longer than 3 characters expanded with " social media". -/
def extractCandidates (postText : String) : List String :=
  let text := pyStrip postText
  let baseQuery :=
    if text.length ≤ 200 then text
    else
      let firstSentence := String.mk (firstSentencePart text.data)
      if firstSentence.length ≤ 200 then firstSentence
      else String.mk (text.data.take 200)
  let queries := [baseQuery]
  let queries := ((quotedPhrases text).take 2).foldl
    (fun qs p => if p.length > 3 && !(qs.contains p) then qs ++ [p] else qs) queries
  let hashtagList := tagMatches '#' text
  let queries :=
    if hashtagList == [] then queries
    else
      let hashtagQuery := String.intercalate (" ") ((hashtagList.take 3).map String.mk)
      if !(queries.contains hashtagQuery) then queries ++ [hashtagQuery] else queries
  let queries := (((capPhrases text).map String.mk).take 2).foldl
    (fun qs p => if !(qs.contains p) && p.length > 5 then qs ++ [p] else qs) queries
  ((tagMatches '@' text).take 1).foldl
    (fun qs m =>
      if (String.mk m).length > 3 then qs ++ [String.mk m ++ " social media"] else qs)
    queries

/-- `extract_search_queries`, final stage: deduplicate the candidates
case-insensitively dropping keys of at most 3 characters, truncate the
survivors to 3, and fall back to the first 200 characters of the
trimmed post when nothing survives. -/
def extractSearchQueries (postText : String) : List String :=
  let text := pyStrip postText
  let dedup := (extractCandidates postText).foldl dedupQueriesStep ([], [])
  if dedup.2 == [] then [String.mk (text.data.take 200)] else dedup.2.take 3

/-! ## Search orchestration (`services/search.py`) -/

/-- The outcome of one provider call: a result list, or the raised
exception's message. -/
abbrev SearchOutcome := Except String (List SearchResult)

/-- The results contributed by one query in `SearchService.search`: the
primary provider's results; on its failure the fallback provider's
results when one is configured; nothing when both fail or no fallback is
configured (the exception is caught and the query skipped). -/
def perQueryResults (primary : String → SearchOutcome)
    (fallback : Option (String → SearchOutcome)) (q : String) : List SearchResult :=
  match primary q with
  | Except.ok rs => rs
  | Except.error _ =>
    match fallback with
    | some f =>
      match f q with
      | Except.ok rs => rs
      | Except.error _ => []
    | none => []

/-- The `all_results` accumulation of `SearchService.search`: each query
is handled independently and its contribution appended. -/
def gatherSearchResults (primary : String → SearchOutcome)
    (fallback : Option (String → SearchOutcome)) : List String → List SearchResult
  | [] => []
  | q :: qs => perQueryResults primary fallback q ++ gatherSearchResults primary fallback qs

/-- A provider invocation performed by `SearchService.search`. -/
inductive SearchCall where
  | primaryCall (q : String)
  | fallbackCall (q : String)
deriving DecidableEq

/-- The provider invocations performed by `SearchService.search`, in
order: the primary provider for every query, and the fallback provider
for a query exactly when the primary call failed and a fallback is
configured. -/
def searchCallTrace (primary : String → SearchOutcome)
    (fallback : Option (String → SearchOutcome)) : List String → List SearchCall
  | [] => []
  | q :: qs =>
    (SearchCall.primaryCall q ::
      (match primary q, fallback with
       | Except.error _, some _ => [SearchCall.fallbackCall q]
       | _, _ => [])) ++ searchCallTrace primary fallback qs

/-- The URL deduplication loop of `SearchService.search`: keep a result
when its URL is not in the `seen` set, recording kept URLs. -/
def dedupByUrlAux (seen : List String) : List SearchResult → List SearchResult
  | [] => []
  | r :: rest =>
    if seen.contains r.url then dedupByUrlAux seen rest
    else r :: dedupByUrlAux (r.url :: seen) rest

/-- Deduplicate by exact URL equality, keeping the first occurrence. -/
def dedupByUrl (rs : List SearchResult) : List SearchResult :=
  dedupByUrlAux [] rs

/-- The sort key `x.score or 0`: a missing score is 0 (a present score
of 0 is falsy in Python and also yields 0). -/
def scoreOrZero (r : SearchResult) : ℚ :=
  r.score.getD 0

/-- The comparison of `unique_results.sort(key=lambda x: x.score or 0,
reverse=True)`: descending by key.  Python's sort is stable, as is
`List.mergeSort`; a stable sort for a total preorder is unique, so the
two agree. -/
def searchDescBy (a b : SearchResult) : Bool :=
  decide (scoreOrZero b ≤ scoreOrZero a)

/-- The configured maximum result count `settings.max_search_results`
(`config.py` default). -/
def maxSearchResults : Nat := 8

/-- `SearchService.search`: gather per-query results, deduplicate by
URL keeping first occurrences, sort descending by score (stable), and
truncate to the configured maximum. -/
def searchService (primary : String → SearchOutcome)
    (fallback : Option (String → SearchOutcome)) (maxResults : Nat)
    (queries : List String) : List SearchResult :=
  ((dedupByUrl (gatherSearchResults primary fallback queries)).mergeSort searchDescBy).take
    maxResults

/-! ## Multi-model LLM provider (`AnthropicProvider` in `services/llm.py`) -/

/-- `AnthropicProvider.MODEL_FALLBACKS`: the ordered model identifier
list tried on each call. -/
def MODEL_FALLBACKS : List String :=
  ["claude-3-5-sonnet-20241022",
   "claude-3-5-sonnet-20240620",
   "claude-3-opus-20240229",
   "claude-3-sonnet-20240229",
   "claude-3-haiku-20240307"]

/-- Substring test on strings (`needle in haystack` in Python). -/
def containsSubstring (needle hay : String) : Bool :=
  decide (needle.data <:+: hay.data)

/-- The "model not found" error classification of the provider:
the loop continues to the next model exactly when
`"404" in str(e) or "not_found" in str(e).lower()`. -/
def isNotFoundError (e : String) : Bool :=
  containsSubstring "404" e || containsSubstring "not_found" (pyLower e)

/-- The mutable per-instance state of `AnthropicProvider`: the
`available` flag set in `__init__`, and `self.model` (the identifier
stored on construction and overwritten with the model of the last
successful call). -/
structure AnthropicState where
  available : Bool
  model : Option String
deriving DecidableEq

/-- The outcome of attempting one model in `generate`: the response
text returned by the API call, or the raised exception's message (the
call, the `self.model` update that follows it and the field access on
the response are modelled as one atomic attempt). -/
inductive AttemptResult (α : Type) where
  | success (val : α)
  | failure (err : String)
deriving DecidableEq

/-- The model fallback loop of `AnthropicProvider.generate`: attempt
the given models in order; on success store the model in `self.model`
and return; on a "model not found" error record it as `last_error` and
continue; on any other error re-raise it immediately; when the models
run out raise the aggregate message around the last error.  Returns the
result, the updated provider state, and the list of models attempted in
order. -/
def tryModelsLoop {α : Type} (failMsg : String) (outcome : String → AttemptResult α)
    (st : AnthropicState) (lastErr : Option String) :
    List String → Except String α × AnthropicState × List String
  | [] => (Except.error (failMsg ++ pyStrOfOpt lastErr), st, [])
  | m :: ms =>
    match outcome m with
    | AttemptResult.success t => (Except.ok t, { st with model := some m }, [m])
    | AttemptResult.failure e =>
      if isNotFoundError e then
        let r := tryModelsLoop failMsg outcome st (some e) ms
        (r.1, r.2.1, m :: r.2.2)
      else (Except.error e, st, [m])

/-- `AnthropicProvider.generate`: raise when the provider is
unavailable; otherwise run the fallback loop over `MODEL_FALLBACKS`
with the aggregate message of the generate path. -/
def anthropicGenerate (outcome : String → AttemptResult String) (st : AnthropicState) :
    Except String String × AnthropicState × List String :=
  if st.available then
    tryModelsLoop "Failed to generate with any Claude model: " outcome st none MODEL_FALLBACKS
  else (Except.error "Anthropic provider not available", st, [])

/-- The outcome of attempting one model in `AnthropicProvider.stream`:
opening the stream (`client.messages.stream(...)` entering the
`async with`) either raises before anything else happens (`openError`),
or succeeds — at which point the source immediately runs
`self.model = model`, then consumes the stream yielding its chunks; the
consumption either finishes (`streamed chunks none`) or raises after
some chunks were already delivered (`streamed chunks (some err)`), and
that exception is caught by the same `except` clause as an open
failure. -/
inductive StreamAttempt where
  | openError (err : String)
  | streamed (chunks : List String) (err : Option String)
deriving DecidableEq

/-- The chunks an attempt delivered to the consumer. -/
def chunksOfAttempt : StreamAttempt → List String
  | StreamAttempt.openError _ => []
  | StreamAttempt.streamed cs _ => cs

/-- The model fallback loop of `AnthropicProvider.stream`: attempt the
given models in order; an open failure or a mid-consumption failure in
the "model not found" class records `last_error` and continues with the
next model (after a mid-consumption failure the failed model's chunks
were already yielded, and `self.model` was already set to it at stream
open); any other error class re-raises immediately — with the state
unchanged when the open itself failed, but with `self.model` already
set to the aborting model when the failure happened mid-consumption;
a completed consumption returns.  When the models run out the aggregate
message around the last error is raised.  Returns the chunks delivered
across all attempts in order, the exception ending the generator (if
any), the resulting provider state, and the models attempted in
order. -/
def streamLoop (outcome : String → StreamAttempt) (st : AnthropicState)
    (lastErr : Option String) :
    List String → List String × Option String × AnthropicState × List String
  | [] => ([], some ("Failed to stream with any Claude model: " ++ pyStrOfOpt lastErr), st, [])
  | m :: ms =>
    match outcome m with
    | StreamAttempt.openError e =>
      if isNotFoundError e then
        let r := streamLoop outcome st (some e) ms
        (r.1, r.2.1, r.2.2.1, m :: r.2.2.2)
      else ([], some e, st, [m])
    | StreamAttempt.streamed cs none => (cs, none, { st with model := some m }, [m])
    | StreamAttempt.streamed cs (some e) =>
      if isNotFoundError e then
        let r := streamLoop outcome { st with model := some m } (some e) ms
        (cs ++ r.1, r.2.1, r.2.2.1, m :: r.2.2.2)
      else (cs, some e, { st with model := some m }, [m])

/-- `AnthropicProvider.stream`: raise when the provider is unavailable;
otherwise run the streaming fallback loop over `MODEL_FALLBACKS`. -/
def anthropicStream (outcome : String → StreamAttempt) (st : AnthropicState) :
    List String × Option String × AnthropicState × List String :=
  if st.available then streamLoop outcome st none MODEL_FALLBACKS
  else ([], some "Anthropic provider not available", st, [])

/-! ## Pipeline orchestrator (`services/explainer.py`) -/

/-- The provider-agnostic vision payload built by
`ImageProcessor.prepare_image_for_vision` (the data URL and the fixed
detail field); the orchestrator passes it through opaquely. -/
structure ImagePayload where
  url : String
  detail : String
deriving DecidableEq

/-- The collaborators of `PostExplainer`, as oracle functions: image
preparation (`None` on any failure — the processor swallows every
error), the search orchestrator (total: provider failures are caught
inside it), and LLM generation (which may raise). -/
structure ExplainEnv where
  imageProc : String → Option ImagePayload
  searchFn : List String → List SearchResult
  llmGenerate : String → Option ImagePayload → Except String String

/-- A pipeline step performed by `explain` after the cache check. -/
inductive PipelineStep where
  | imageCall (url : String)
  | queryExtractStep (queries : List String)
  | searchCall (queries : List String)
  | llmCall (prompt : String)
deriving DecidableEq

/-- The cache key of `PostExplainer.explain`:
`f"{post_text}:{image_url or ''}"` (a missing image URL contributes the
empty string; an empty-string image URL is falsy and does the same). -/
def explainCacheKey (postText : String) (imageUrl : Option String) : String :=
  postText ++ ":" ++ (match imageUrl with | none => "" | some u => u)

/-- `PostExplainer.explain`: check the cache when `use_cache` and return
the cached bullets and sources with `cached=True` on a hit, performing
no further step; otherwise optionally prepare the image (an empty URL is
falsy and skipped), extract queries, search, build the prompt, generate;
a generation error propagates and nothing is stored; on success parse
bullets, filter sources, store the result when `use_cache`, and return
it with `cached=False`.  Returns the response or error, the resulting
cache, and the pipeline steps performed. -/
def explain (env : ExplainEnv) (ttl now : Int) (postText : String)
    (imageUrl : Option String) (useCache : Bool) (cache : Cache) :
    Except String ExplainResponse × Cache × List PipelineStep :=
  let cacheKey := explainCacheKey postText imageUrl
  let hit := if useCache then cacheGet ttl now cache cacheKey else (none, cache)
  match hit.1 with
  | some v =>
    (Except.ok { bullets := v.bullets, sources := v.sources, cached := true }, hit.2, [])
  | none =>
    let c1 := hit.2
    let imageStep : Option ImagePayload × List PipelineStep :=
      match imageUrl with
      | some u => if u == "" then (none, []) else (env.imageProc u, [PipelineStep.imageCall u])
      | none => (none, [])
    let queries := extractSearchQueries postText
    let searchResults := env.searchFn queries
    let prompt := buildExplanationPrompt postText searchResults
    let steps := imageStep.2 ++
      [PipelineStep.queryExtractStep queries, PipelineStep.searchCall queries,
       PipelineStep.llmCall prompt]
    match env.llmGenerate prompt imageStep.1 with
    | Except.error e => (Except.error e, c1, steps)
    | Except.ok raw =>
      let bullets := parseBullets raw
      let sources := buildSources searchResults raw
      let c2 :=
        if useCache then cacheSet now c1 cacheKey { bullets := bullets, sources := sources }
        else c1
      (Except.ok { bullets := bullets, sources := sources, cached := false }, c2, steps)

/-! ## Streaming (`PostExplainer.explain_stream` and the
`/explain/stream` route in `api/routes.py`) -/

/-- An item yielded by the `explain_stream` generator. -/
inductive StreamItem where
  | sources (data : List Source)
  | chunk (text : String)
deriving DecidableEq

/-- The source dictionaries yielded first by `explain_stream`: the full
search-result list, 1-indexed, with snippets truncated to 200
characters (the same truncation as `_build_sources`, with no citation
filtering). -/
def streamSources (rs : List SearchResult) : List Source :=
  rs.enum.map (fun p => mkSource (p.1 + 1) p.2)

/-- A run of the `explain_stream` generator, parametrized by the search
outcome and by the chunks the LLM stream delivered before completing or
raising: a failure before the sources are yielded produces no items; a
search success yields the sources item and then the delivered chunks,
after which the generator either finishes (`llmErr = none`) or raises.
Returns the yielded items and the exception, if any, that ended the
generator. -/
def explainStreamRun (searchOutcome : Except String (List SearchResult))
    (llmChunks : List String) (llmErr : Option String) :
    List StreamItem × Option String :=
  match searchOutcome with
  | Except.error e => ([], some e)
  | Except.ok rs =>
    (StreamItem.sources (streamSources rs) :: llmChunks.map StreamItem.chunk, llmErr)

/-- A server-sent event emitted by the `/explain/stream` route. -/
inductive SseEvent where
  | sources (data : List Source)
  | chunk (text : String)
  | done
  | error (msg : String)
deriving DecidableEq

/-- The wrapping of one generator item by the route's
`event_generator`. -/
def sseOfItem (item : StreamItem) : SseEvent :=
  match item with
  | StreamItem.sources d => SseEvent.sources d
  | StreamItem.chunk t => SseEvent.chunk t

/-- Whether a server-sent event is a `sources` event. -/
def isSourcesEvent (ev : SseEvent) : Bool :=
  match ev with
  | SseEvent.sources _ => true
  | _ => false

/-- The `event_generator` of the `/explain/stream` route: forward every
generator item; after normal completion emit one `done` event; when the
generator raises, emit one `error` event carrying the message and stop
(no `done`, nothing after the error). -/
def routeStreamEvents (run : List StreamItem × Option String) : List SseEvent :=
  run.1.map sseOfItem ++
    (match run.2 with
     | none => [SseEvent.done]
     | some e => [SseEvent.error e])

/-! ## Concrete collaborator environments used in closed instances -/

/-- A concrete collaborator environment whose LLM always answers with a
fixed single-bullet reply, used to exercise the cache-key collision
end to end. -/
def collisionEnv : ExplainEnv :=
  ⟨fun _ => none, fun _ => [], fun _ _ => Except.ok "• A good long bullet reply [1]"⟩

/-- A concrete collaborator environment whose LLM always raises, used to
exercise the generation-failure path end to end. -/
def failEnv : ExplainEnv :=
  ⟨fun _ => none, fun _ => [], fun _ _ => Except.error "boom"⟩

/-! ## Claim C1: cache hit short-circuits the pipeline -/

/-- C1: when `use_cache` holds and the cache holds an unexpired entry
for the request's `(text, image_url)` key, `explain` returns exactly
that entry's bullets and sources with `cached = true`, the cache is left
unchanged, and no pipeline step executes: no image processing, no query
extraction, no search call and no LLM call. -/
theorem explain_cache_hit_short_circuits (env : ExplainEnv) (ttl now : Int)
    (post : String) (imageUrl : Option String) (cache : Cache)
    (entry : String × CachedValue × Int)
    (hfind : cache.find? (fun e => e.1 == generateKey (explainCacheKey post imageUrl)) =
      some entry)
    (hfresh : ¬(now - entry.2.2 > ttl)) :
    explain env ttl now post imageUrl true cache =
      (Except.ok { bullets := entry.2.1.bullets, sources := entry.2.1.sources, cached := true },
        cache, []) := by
  simp only [explain, cacheGet, if_true, hfind, if_neg hfresh]

/-- C1 witness: a concrete unexpired cache entry is returned verbatim
with `cached = true` and an empty step trace. -/
theorem explain_cache_hit_short_circuits_witness :
    explain ⟨fun _ => none, fun _ => [], fun _ _ => Except.error "no"⟩ 10 5 "hi" none true
        [("explain:hi:", ⟨["aaa"], []⟩, 0)] =
      (Except.ok { bullets := ["aaa"], sources := [], cached := true },
        [("explain:hi:", ⟨["aaa"], []⟩, 0)], []) :=
  explain_cache_hit_short_circuits _ 10 5 "hi" none _ ("explain:hi:", ⟨["aaa"], []⟩, 0)
    (by decide) (by decide)

/-! ## Claim C10: colliding cache keys -/

/-- C10: the requests `(post_text="a", image_url="b:")` and
`(post_text="a:b", image_url=None)` are distinct but produce the same
cache key string and hence the same cache key, and after the first
request is answered and cached, the second request is answered from the
cache: it returns the first request's bullets and sources with
`cached = true` and performs no pipeline step. -/
theorem explain_cache_key_collision :
    (("a" : String), (some "b:" : Option String)) ≠ (("a:b" : String), (none : Option String))
    ∧ explainCacheKey "a" (some "b:") = explainCacheKey "a:b" none
    ∧ generateKey (explainCacheKey "a" (some "b:")) = generateKey (explainCacheKey "a:b" none)
    ∧ (explain collisionEnv 86400 100 "a:b" none true []).1 =
        Except.ok ⟨["A good long bullet reply [1]"], [], false⟩
    ∧ (explain collisionEnv 86400 100 "a" (some "b:") true
        (explain collisionEnv 86400 100 "a:b" none true []).2.1).1 =
        Except.ok ⟨["A good long bullet reply [1]"], [], true⟩
    ∧ (explain collisionEnv 86400 100 "a" (some "b:") true
        (explain collisionEnv 86400 100 "a:b" none true []).2.1).2.2 = [] := by
  exact ⟨by decide, by decide, by decide, by decide, by decide, by decide⟩

/-! ## Claim C6: bullet parsing -/

/-- C6: `_parse_bullets` returns at most 5 bullets; every bullet is
either a surviving cleaned line or the stripped raw text (the
fallback); every surviving line is a stripped line of the newline-split
stripped input, cleaned of its leading markers, longer than 10
characters; the fallback fires exactly when no line survives and the
input is non-blank; the result is empty exactly when the input is
blank; and on the spec's example input exactly the two long lines
survive. -/
theorem parse_bullets_spec (raw : String) :
    (parseBullets raw).length ≤ 5
    ∧ (∀ b ∈ parseBullets raw, b ∈ bulletCandidates raw ∨ b = pyStrip raw)
    ∧ (∀ b ∈ bulletCandidates raw,
        ∃ l ∈ splitLines (pyStrip raw), b = cleanBulletLine (pyStrip l) ∧ b.length > 10)
    ∧ (bulletCandidates raw = [] → pyStrip raw ≠ "" → parseBullets raw = [pyStrip raw])
    ∧ (parseBullets raw = [] ↔ pyStrip raw = "")
    ∧ parseBullets "• A useful long enough line\n• Another one here\nshort\n" =
        ["A useful long enough line", "Another one here"] := by
  refine ⟨?_, ?_, ?_, ?_, ?_, by decide⟩
  · exact List.length_take_le 5 _
  · intro b hb
    unfold parseBullets at hb
    simp only at hb
    have hb2 := List.take_subset 5 _ hb
    by_cases h : bulletCandidates raw == [] && pyStrip raw != ""
    · rw [if_pos h] at hb2
      simp only [List.mem_singleton] at hb2
      exact Or.inr hb2
    · rw [if_neg h] at hb2
      exact Or.inl hb2
  · intro b hb
    unfold bulletCandidates at hb
    rw [List.mem_filterMap] at hb
    obtain ⟨l, hl, hf⟩ := hb
    refine ⟨l, hl, ?_⟩
    by_cases hline : pyStrip l == ""
    · rw [if_pos hline] at hf; exact absurd hf (by simp)
    · rw [if_neg hline] at hf
      by_cases hc : cleanBulletLine (pyStrip l) != "" && (cleanBulletLine (pyStrip l)).length > 10
      · rw [if_pos hc] at hf
        obtain ⟨hc1, hc2⟩ := Bool.and_eq_true_iff.mp hc
        cases hf
        exact ⟨rfl, by simpa using hc2⟩
      · rw [if_neg hc] at hf; exact absurd hf (by simp)
  · intro h1 h2
    unfold parseBullets
    rw [if_pos (by simp [h1, h2])]
    rfl
  · constructor
    · intro h
      by_contra hne
      by_cases hc : bulletCandidates raw = []
      · have := parseBullets raw
        unfold parseBullets at h
        rw [if_pos (by simp [hc, hne])] at h
        simp at h
      · unfold parseBullets at h
        rw [if_neg (by simp [hc])] at h
        rcases hx : bulletCandidates raw with _ | ⟨a, as⟩
        · exact hc hx
        · rw [hx] at h; simp at h
    · intro h
      have hc : bulletCandidates raw = [] := by
        unfold bulletCandidates
        rw [h]
        decide
      unfold parseBullets
      rw [if_neg (by simp [hc, h])]
      rw [hc]
      rfl

/-- C6 witness: concrete instances of the bound and the fallback
behavior. -/
theorem parse_bullets_spec_witness :
    (parseBullets "tiny").length ≤ 5 ∧ parseBullets "tiny" = ["tiny"] :=
  ⟨(parse_bullets_spec "tiny").1,
    (parse_bullets_spec "tiny").2.2.2.1 (by decide) (by decide)⟩

/-! ## Claim C2: per-query provider fallback, tolerant of failure -/

/-- Each query contributes its results independently. -/
theorem gatherSearchResults_flatMap (primary : String → SearchOutcome)
    (fallback : Option (String → SearchOutcome)) (queries : List String) :
    gatherSearchResults primary fallback queries =
      queries.flatMap (perQueryResults primary fallback) := by
  induction queries with
  | nil => rfl
  | cons q qs ih => simp [gatherSearchResults, ih]

/-- C2: `SearchService.search` calls the primary provider once per query
in order, attempts the configured fallback provider for a query exactly
when the primary call for that query failed, contributes nothing for a
query when both fail, and never raises; in particular, when the primary
provider fails for every query and no fallback is configured, it
returns the empty list. -/
theorem search_per_query_fallback (primary : String → SearchOutcome)
    (fallback : Option (String → SearchOutcome)) (maxResults : Nat)
    (queries : List String) :
    searchCallTrace primary fallback queries =
      queries.flatMap (fun q =>
        SearchCall.primaryCall q ::
          (match primary q, fallback with
           | Except.error _, some _ => [SearchCall.fallbackCall q]
           | _, _ => []))
    ∧ gatherSearchResults primary fallback queries =
        queries.flatMap (perQueryResults primary fallback)
    ∧ (∀ q e, primary q = Except.error e → fallback = none →
        perQueryResults primary fallback q = [])
    ∧ ((∀ q ∈ queries, ∃ e, primary q = Except.error e) → fallback = none →
        searchService primary fallback maxResults queries = []) := by
  refine ⟨?_, gatherSearchResults_flatMap primary fallback queries, ?_, ?_⟩
  · induction queries with
    | nil => rfl
    | cons q qs ih => simp [searchCallTrace, ih]
  · intro q e hq hfb
    simp [perQueryResults, hq, hfb]
  · intro hall hfb
    subst hfb
    have hgather : gatherSearchResults primary none queries = [] := by
      induction queries with
      | nil => rfl
      | cons q qs ih =>
        obtain ⟨e, he⟩ := hall q (List.mem_cons_self q qs)
        have hrest : ∀ q2 ∈ qs, ∃ e2, primary q2 = Except.error e2 := fun q2 hq2 =>
          hall q2 (List.mem_cons_of_mem q hq2)
        simp [gatherSearchResults, perQueryResults, he, ih hrest]
    simp [searchService, hgather, dedupByUrl, dedupByUrlAux]

/-- C2 witness: with a primary provider that always fails and no
fallback, two queries produce the empty result list and a trace of two
primary calls. -/
theorem search_per_query_fallback_witness :
    searchService (fun _ => Except.error "down") none 8 ["a", "b"] = []
    ∧ searchCallTrace (fun _ => Except.error "down") none ["a", "b"] =
        [SearchCall.primaryCall "a", SearchCall.primaryCall "b"] :=
  ⟨(search_per_query_fallback (fun _ => Except.error "down") none 8 ["a", "b"]).2.2.2
      (by intro q hq; exact ⟨"down", rfl⟩) rfl,
    by decide⟩

/-! ## Claim C4: deduplication, ordering and cap of search results -/

/-- The comparison `searchDescBy` is transitive. -/
theorem searchDescBy_trans (a b c : SearchResult) (hab : searchDescBy a b = true)
    (hbc : searchDescBy b c = true) : searchDescBy a c = true := by
  simp only [searchDescBy, decide_eq_true_eq] at *
  exact le_trans hbc hab

/-- The comparison `searchDescBy` is total. -/
theorem searchDescBy_total (a b : SearchResult) :
    (searchDescBy a b || searchDescBy b a) = true := by
  simp only [searchDescBy, Bool.or_eq_true, decide_eq_true_eq]
  exact le_total (scoreOrZero b) (scoreOrZero a)

/-- The deduplication loop keeps, for every URL not yet seen, exactly
the first result carrying it: `find?` by URL agrees with the input. -/
theorem dedupByUrlAux_find? (rs : List SearchResult) :
    ∀ (seen : List String) (u : String), seen.contains u = false →
      (dedupByUrlAux seen rs).find? (fun r => r.url == u) =
        rs.find? (fun r => r.url == u) := by
  induction rs with
  | nil => intro seen u _; rfl
  | cons r rest ih =>
    intro seen u hu
    by_cases hseen : seen.contains r.url
    · have hne : ¬(r.url = u) := by
        intro h
        rw [h] at hseen
        rw [hseen] at hu
        cases hu
      have hbe : (r.url == u) = false := beq_eq_false_iff_ne.mpr hne
      simp only [dedupByUrlAux, if_pos hseen, List.find?, hbe, ih seen u hu]
    · by_cases hru : r.url = u
      · have hbe : (r.url == u) = true := beq_iff_eq.mpr hru
        simp only [dedupByUrlAux, if_neg hseen, List.find?, hbe]
      · have hbe : (r.url == u) = false := beq_eq_false_iff_ne.mpr hru
        have hu2 : (r.url :: seen).contains u = false := by
          simp only [List.contains_cons, Bool.or_eq_false_iff]
          exact ⟨beq_eq_false_iff_ne.mpr fun h => hru h.symm, hu⟩
        simp only [dedupByUrlAux, if_neg hseen, List.find?, hbe, ih _ u hu2]

/-- The URLs kept by the deduplication loop are pairwise distinct and
disjoint from the `seen` set. -/
theorem dedupByUrlAux_nodup (rs : List SearchResult) :
    ∀ seen : List String,
      ((dedupByUrlAux seen rs).map SearchResult.url).Nodup
      ∧ ∀ r ∈ dedupByUrlAux seen rs, seen.contains r.url = false := by
  induction rs with
  | nil => intro seen; exact ⟨List.nodup_nil, by intro r hr; cases hr⟩
  | cons r rest ih =>
    intro seen
    by_cases hseen : seen.contains r.url
    · simpa only [dedupByUrlAux, if_pos hseen] using ih seen
    · obtain ⟨ihn, ihd⟩ := ih (r.url :: seen)
      refine ⟨?_, ?_⟩
      · simp only [dedupByUrlAux, if_neg hseen, List.map_cons, List.nodup_cons]
        refine ⟨?_, ihn⟩
        intro hmem
        obtain ⟨x, hx, hxu⟩ := List.mem_map.mp hmem
        have := ihd x hx
        rw [hxu] at this
        simp at this
      · intro x hx
        simp only [dedupByUrlAux, if_neg hseen, List.mem_cons] at hx
        rcases hx with rfl | hx
        · simpa using hseen
        · have := ihd x hx
          simp only [List.contains_cons, Bool.or_eq_false_iff] at this
          exact this.2

/-- C4: `SearchService.search` post-processes the accumulated provider
results by deduplicating on exact URL equality keeping the first
occurrence (lookup by URL agrees with the raw accumulation), sorting
descending by score with a missing score treated as 0, stably for ties
with respect to the pre-sort order, and truncating to the configured
maximum, so the output length never exceeds it. -/
theorem search_results_deduped_sorted_capped (rs : List SearchResult) (maxResults : Nat)
    (primary : String → SearchOutcome) (fallback : Option (String → SearchOutcome))
    (queries : List String) :
    searchService primary fallback maxResults queries =
      ((dedupByUrl (gatherSearchResults primary fallback queries)).mergeSort
        searchDescBy).take maxResults
    ∧ (((dedupByUrl rs).mergeSort searchDescBy).take maxResults).length ≤ maxResults
    ∧ List.Pairwise (fun a b => scoreOrZero b ≤ scoreOrZero a)
        (((dedupByUrl rs).mergeSort searchDescBy).take maxResults)
    ∧ ((((dedupByUrl rs).mergeSort searchDescBy).take maxResults).map SearchResult.url).Nodup
    ∧ (∀ u, (dedupByUrl rs).find? (fun r => r.url == u) = rs.find? (fun r => r.url == u))
    ∧ (∀ a b, scoreOrZero a = scoreOrZero b → [a, b].Sublist (dedupByUrl rs) →
        [a, b].Sublist ((dedupByUrl rs).mergeSort searchDescBy)) := by
  refine ⟨rfl, List.length_take_le maxResults _, ?_, ?_, ?_, ?_⟩
  · have hs := @List.sorted_mergeSort _ searchDescBy searchDescBy_trans
      searchDescBy_total (dedupByUrl rs)
    have hp := hs.sublist (List.take_sublist maxResults _)
    exact hp.imp (fun h => by simpa [searchDescBy, decide_eq_true_eq] using h)
  · have hnd : ((dedupByUrl rs).map SearchResult.url).Nodup := (dedupByUrlAux_nodup rs []).1
    have hperm : List.Perm (((dedupByUrl rs).mergeSort searchDescBy).map SearchResult.url)
        ((dedupByUrl rs).map SearchResult.url) :=
      (List.mergeSort_perm (dedupByUrl rs) searchDescBy).map SearchResult.url
    have hnd2 := hperm.nodup_iff.mpr hnd
    exact hnd2.sublist ((List.take_sublist maxResults _).map SearchResult.url)
  · intro u
    exact dedupByUrlAux_find? rs [] u rfl
  · intro a b hab hsub
    refine List.pair_sublist_mergeSort searchDescBy_trans searchDescBy_total ?_ hsub
    simp [searchDescBy, hab]

/-- C4 witness: on a concrete accumulation with a duplicate URL and a
tie, the output is deduplicated, descending and capped. -/
theorem search_results_deduped_sorted_capped_witness :
    (∀ u, (dedupByUrl
        [⟨"t1", "u1", none, some 1⟩, ⟨"t2", "u1", none, some 5⟩,
         ⟨"t3", "u2", none, none⟩]).find? (fun r => r.url == u) =
      ([⟨"t1", "u1", none, some 1⟩, ⟨"t2", "u1", none, some 5⟩,
        ⟨"t3", "u2", none, none⟩] : List SearchResult).find? (fun r => r.url == u))
    ∧ (((dedupByUrl [⟨"t1", "u1", none, some 1⟩, ⟨"t2", "u1", none, some 5⟩,
        ⟨"t3", "u2", none, none⟩]).mergeSort searchDescBy).take 8).length ≤ 8 :=
  ⟨(search_results_deduped_sorted_capped
      [⟨"t1", "u1", none, some 1⟩, ⟨"t2", "u1", none, some 5⟩, ⟨"t3", "u2", none, none⟩]
      8 (fun _ => Except.error "x") none []).2.2.2.2.1,
    (search_results_deduped_sorted_capped
      [⟨"t1", "u1", none, some 1⟩, ⟨"t2", "u1", none, some 5⟩, ⟨"t3", "u2", none, none⟩]
      8 (fun _ => Except.error "x") none []).2.1⟩

/-! ## Claim C3: multi-model fallback semantics -/

/-- Unfolding of the fallback loop on the empty model list. -/
theorem tryModelsLoop_nil {α : Type} (failMsg : String) (outcome : String → AttemptResult α)
    (st : AnthropicState) (lastErr : Option String) :
    tryModelsLoop failMsg outcome st lastErr [] =
      (Except.error (failMsg ++ pyStrOfOpt lastErr), st, []) := rfl

/-- Unfolding of the fallback loop when the first model succeeds. -/
theorem tryModelsLoop_cons_success {α : Type} (failMsg : String)
    (outcome : String → AttemptResult α) (st : AnthropicState) (lastErr : Option String)
    (m : String) (ms : List String) (t : α) (ho : outcome m = AttemptResult.success t) :
    tryModelsLoop failMsg outcome st lastErr (m :: ms) =
      (Except.ok t, { st with model := some m }, [m]) := by
  simp [tryModelsLoop, ho]

/-- Unfolding of the fallback loop when the first model fails with a
"model not found" class of error. -/
theorem tryModelsLoop_cons_notFound {α : Type} (failMsg : String)
    (outcome : String → AttemptResult α) (st : AnthropicState) (lastErr : Option String)
    (m : String) (ms : List String) (e : String) (ho : outcome m = AttemptResult.failure e)
    (h404 : isNotFoundError e = true) :
    tryModelsLoop failMsg outcome st lastErr (m :: ms) =
      ((tryModelsLoop failMsg outcome st (some e) ms).1,
        (tryModelsLoop failMsg outcome st (some e) ms).2.1,
        m :: (tryModelsLoop failMsg outcome st (some e) ms).2.2) := by
  simp [tryModelsLoop, ho, h404]

/-- Unfolding of the fallback loop when the first model fails with any
other error class. -/
theorem tryModelsLoop_cons_abort {α : Type} (failMsg : String)
    (outcome : String → AttemptResult α) (st : AnthropicState) (lastErr : Option String)
    (m : String) (ms : List String) (e : String) (ho : outcome m = AttemptResult.failure e)
    (h404 : isNotFoundError e = false) :
    tryModelsLoop failMsg outcome st lastErr (m :: ms) = (Except.error e, st, [m]) := by
  simp [tryModelsLoop, ho, h404]

/-- The models attempted by the fallback loop form a prefix of the model
list: attempts proceed in list order from the start. -/
theorem tryModelsLoop_trace_isPrefix {α : Type} (failMsg : String)
    (outcome : String → AttemptResult α) :
    ∀ (models : List String) (st : AnthropicState) (lastErr : Option String),
      (tryModelsLoop failMsg outcome st lastErr models).2.2 <+: models := by
  intro models
  induction models with
  | nil => intro st lastErr; exact ⟨[], rfl⟩
  | cons m ms ih =>
    intro st lastErr
    rcases ho : outcome m with t | e
    · exact ⟨ms, by simp [tryModelsLoop, ho]⟩
    · by_cases h404 : isNotFoundError e
      · obtain ⟨t, ht⟩ := ih st (some e)
        exact ⟨t, by simp [tryModelsLoop, ho, h404, ht]⟩
      · exact ⟨ms, by simp [tryModelsLoop, ho, h404]⟩

/-- Every attempted model except the last failed with a
"model not found" class of error: the loop moves on only for that
class. -/
theorem tryModelsLoop_dropLast_notFound {α : Type} (failMsg : String)
    (outcome : String → AttemptResult α) :
    ∀ (models : List String) (st : AnthropicState) (lastErr : Option String),
      ∀ m1 ∈ (tryModelsLoop failMsg outcome st lastErr models).2.2.dropLast,
        ∃ e, outcome m1 = AttemptResult.failure e ∧ isNotFoundError e = true := by
  intro models
  induction models with
  | nil => intro st lastErr m1 hm1; simp [tryModelsLoop] at hm1
  | cons m ms ih =>
    intro st lastErr m1 hm1
    rcases ho : outcome m with t | e
    · simp [tryModelsLoop, ho] at hm1
    · by_cases h404 : isNotFoundError e
      · simp only [tryModelsLoop, ho, if_pos h404] at hm1
        rcases htr : (tryModelsLoop failMsg outcome st (some e) ms).2.2 with _ | ⟨x, xs⟩
        · rw [htr] at hm1; simp at hm1
        · rw [htr] at hm1
          rw [List.dropLast_cons₂] at hm1
          rcases List.mem_cons.mp hm1 with rfl | hm2
          · exact ⟨e, ho, h404⟩
          · have := ih st (some e) m1
            rw [htr] at this
            exact this (by simpa using hm2)
      · simp [tryModelsLoop, ho, h404] at hm1

/-- A successful loop run returns the value of its last attempted model
and stores that model in the provider state. -/
theorem tryModelsLoop_ok {α : Type} (failMsg : String)
    (outcome : String → AttemptResult α) :
    ∀ (models : List String) (st : AnthropicState) (lastErr : Option String) (t : α),
      (tryModelsLoop failMsg outcome st lastErr models).1 = Except.ok t →
      ∃ m, (tryModelsLoop failMsg outcome st lastErr models).2.2.getLast? = some m
        ∧ outcome m = AttemptResult.success t
        ∧ (tryModelsLoop failMsg outcome st lastErr models).2.1 = { st with model := some m } := by
  intro models
  induction models with
  | nil => intro st lastErr t h; simp [tryModelsLoop] at h
  | cons m ms ih =>
    intro st lastErr t h
    rcases ho : outcome m with t2 | e
    · simp only [tryModelsLoop, ho] at h ⊢
      cases h
      exact ⟨m, rfl, ho, rfl⟩
    · by_cases h404 : isNotFoundError e
      · simp only [tryModelsLoop, ho, if_pos h404] at h ⊢
        obtain ⟨m2, hm2, hout, hst⟩ := ih st (some e) t h
        refine ⟨m2, ?_, hout, hst⟩
        rcases htr : (tryModelsLoop failMsg outcome st (some e) ms).2.2 with _ | ⟨x, xs⟩
        · rw [htr] at hm2; simp at hm2
        · rw [htr] at hm2
          rw [List.getLast?_cons_cons]
          exact hm2
      · simp [tryModelsLoop, ho, h404] at h

/-- When the last attempted model failed with an error outside the
"model not found" class, the loop aborted immediately, re-raising that
error and leaving the provider state unchanged. -/
theorem tryModelsLoop_abort {α : Type} (failMsg : String)
    (outcome : String → AttemptResult α) :
    ∀ (models : List String) (st : AnthropicState) (lastErr : Option String) (m : String)
      (e : String),
      (tryModelsLoop failMsg outcome st lastErr models).2.2.getLast? = some m →
      outcome m = AttemptResult.failure e → isNotFoundError e = false →
      (tryModelsLoop failMsg outcome st lastErr models).1 = Except.error e
        ∧ (tryModelsLoop failMsg outcome st lastErr models).2.1 = st := by
  intro models
  induction models with
  | nil => intro st lastErr m e hm _ _; simp [tryModelsLoop] at hm
  | cons m0 ms ih =>
    intro st lastErr m e hm hout h404
    rcases ho : outcome m0 with t2 | e2
    · simp only [tryModelsLoop, ho] at hm ⊢
      simp at hm
      rw [hm] at ho
      rw [ho] at hout
      cases hout
    · by_cases h4042 : isNotFoundError e2
      · simp only [tryModelsLoop, ho, if_pos h4042] at hm ⊢
        rcases htr : (tryModelsLoop failMsg outcome st (some e2) ms).2.2 with _ | ⟨x, xs⟩
        · rw [htr] at hm
          simp at hm
          rw [hm] at ho
          rw [ho] at hout
          cases hout
          rw [h4042] at h404
          cases h404
        · rw [htr] at hm
          have hm2 : (tryModelsLoop failMsg outcome st (some e2) ms).2.2.getLast? = some m := by
            rw [htr]; simpa using hm
          exact ih st (some e2) m e hm2 hout h404
      · simp only [tryModelsLoop, ho, if_neg h4042] at hm ⊢
        simp at hm
        rw [hm] at ho
        rw [ho] at hout
        cases hout
        exact ⟨rfl, trivial⟩

/-- When every model fails with a "model not found" class of error, the
loop attempts all of them, leaves the state unchanged, and raises the
aggregate message wrapping the last model's error. -/
theorem tryModelsLoop_allNotFound {α : Type} (failMsg : String)
    (outcome : String → AttemptResult α) :
    ∀ (models : List String) (st : AnthropicState) (lastErr : Option String),
      (∀ m ∈ models, ∃ e, outcome m = AttemptResult.failure e ∧ isNotFoundError e = true) →
      models ≠ [] →
      ∃ m e, models.getLast? = some m ∧ outcome m = AttemptResult.failure e
        ∧ (tryModelsLoop failMsg outcome st lastErr models).1 = Except.error (failMsg ++ e)
        ∧ (tryModelsLoop failMsg outcome st lastErr models).2.1 = st
        ∧ (tryModelsLoop failMsg outcome st lastErr models).2.2 = models := by
  intro models
  induction models with
  | nil => intro st lastErr _ hne; exact absurd rfl hne
  | cons m0 ms ih =>
    intro st lastErr hall _
    obtain ⟨e0, he0, h404⟩ := hall m0 (List.mem_cons_self m0 ms)
    rcases hms : ms with _ | ⟨m1, ms1⟩
    · subst hms
      exact ⟨m0, e0, rfl, he0, by simp [tryModelsLoop, he0, h404, pyStrOfOpt], by
        simp [tryModelsLoop, he0, h404], by simp [tryModelsLoop, he0, h404]⟩
    · subst hms
      have hne2 : m1 :: ms1 ≠ ([] : List String) := by simp
      have hall2 : ∀ m ∈ m1 :: ms1, ∃ e, outcome m = AttemptResult.failure e
          ∧ isNotFoundError e = true := fun m hm => hall m (List.mem_cons_of_mem m0 hm)
      obtain ⟨m, e, hlast, hout, hres, hst, htr⟩ := ih st (some e0) hall2 hne2
      have hstep := tryModelsLoop_cons_notFound failMsg outcome st lastErr m0 (m1 :: ms1)
        e0 he0 h404
      refine ⟨m, e, ?_, hout, ?_, ?_, ?_⟩
      · rw [List.getLast?_cons_cons]
        exact hlast
      · rw [hstep]; exact hres
      · rw [hstep]; exact hst
      · rw [hstep]; simp [htr]

/-- The loop always starts with the head of the model list, whatever the
provider state holds. -/
theorem tryModelsLoop_head {α : Type} (failMsg : String)
    (outcome : String → AttemptResult α) (st : AnthropicState) (lastErr : Option String)
    (m : String) (ms : List String) :
    (tryModelsLoop failMsg outcome st lastErr (m :: ms)).2.2.head? = some m := by
  rcases ho : outcome m with t | e
  · simp [tryModelsLoop, ho]
  · by_cases h404 : isNotFoundError e
    · simp [tryModelsLoop, ho, h404]
    · simp [tryModelsLoop, ho, h404]

/-- Unfolding of the streaming fallback loop when opening the stream
on the first model fails with a "model not found" class of error. -/
theorem streamLoop_cons_openNotFound (outcome : String → StreamAttempt)
    (st : AnthropicState) (lastErr : Option String) (m : String) (ms : List String)
    (e : String) (ho : outcome m = StreamAttempt.openError e)
    (h404 : isNotFoundError e = true) :
    streamLoop outcome st lastErr (m :: ms) =
      ((streamLoop outcome st (some e) ms).1,
        (streamLoop outcome st (some e) ms).2.1,
        (streamLoop outcome st (some e) ms).2.2.1,
        m :: (streamLoop outcome st (some e) ms).2.2.2) := by
  simp [streamLoop, ho, h404]

/-- Unfolding of the streaming fallback loop when the first model's
stream opens (updating `self.model`), delivers chunks, and then fails
mid-consumption with a "model not found" class of error. -/
theorem streamLoop_cons_midNotFound (outcome : String → StreamAttempt)
    (st : AnthropicState) (lastErr : Option String) (m : String) (ms : List String)
    (cs : List String) (e : String) (ho : outcome m = StreamAttempt.streamed cs (some e))
    (h404 : isNotFoundError e = true) :
    streamLoop outcome st lastErr (m :: ms) =
      (cs ++ (streamLoop outcome { st with model := some m } (some e) ms).1,
        (streamLoop outcome { st with model := some m } (some e) ms).2.1,
        (streamLoop outcome { st with model := some m } (some e) ms).2.2.1,
        m :: (streamLoop outcome { st with model := some m } (some e) ms).2.2.2) := by
  simp [streamLoop, ho, h404]

/-- The models attempted by the streaming fallback loop form a prefix
of the model list. -/
theorem streamLoop_trace_isPrefix (outcome : String → StreamAttempt) :
    ∀ (models : List String) (st : AnthropicState) (lastErr : Option String),
      (streamLoop outcome st lastErr models).2.2.2 <+: models := by
  intro models
  induction models with
  | nil => intro st lastErr; exact ⟨[], rfl⟩
  | cons m ms ih =>
    intro st lastErr
    rcases ho : outcome m with e | ⟨cs, _ | e⟩
    · by_cases h404 : isNotFoundError e
      · obtain ⟨t, ht⟩ := ih st (some e)
        exact ⟨t, by simp [streamLoop, ho, h404, ht]⟩
      · exact ⟨ms, by simp [streamLoop, ho, h404]⟩
    · exact ⟨ms, by simp [streamLoop, ho]⟩
    · by_cases h404 : isNotFoundError e
      · obtain ⟨t, ht⟩ := ih { st with model := some m } (some e)
        exact ⟨t, by simp [streamLoop, ho, h404, ht]⟩
      · exact ⟨ms, by simp [streamLoop, ho, h404]⟩

/-- The streaming fallback loop always starts with the head of the
model list, whatever the provider state holds. -/
theorem streamLoop_head (outcome : String → StreamAttempt) (st : AnthropicState)
    (lastErr : Option String) (m : String) (ms : List String) :
    (streamLoop outcome st lastErr (m :: ms)).2.2.2.head? = some m := by
  rcases ho : outcome m with e | ⟨cs, _ | e⟩
  · by_cases h404 : isNotFoundError e <;> simp [streamLoop, ho, h404]
  · simp [streamLoop, ho]
  · by_cases h404 : isNotFoundError e <;> simp [streamLoop, ho, h404]

/-- Every model the streaming loop moved past failed — at open or
mid-consumption — with a "model not found" class of error. -/
theorem streamLoop_dropLast_notFound (outcome : String → StreamAttempt) :
    ∀ (models : List String) (st : AnthropicState) (lastErr : Option String),
      ∀ m1 ∈ (streamLoop outcome st lastErr models).2.2.2.dropLast,
        ∃ e, isNotFoundError e = true ∧
          (outcome m1 = StreamAttempt.openError e
            ∨ ∃ cs, outcome m1 = StreamAttempt.streamed cs (some e)) := by
  intro models
  induction models with
  | nil => intro st lastErr m1 hm1; simp [streamLoop] at hm1
  | cons m ms ih =>
    intro st lastErr m1 hm1
    rcases ho : outcome m with e | ⟨cs, _ | e⟩
    · by_cases h404 : isNotFoundError e
      · simp only [streamLoop, ho, if_pos h404] at hm1
        rcases htr : (streamLoop outcome st (some e) ms).2.2.2 with _ | ⟨x, xs⟩
        · rw [htr] at hm1; simp at hm1
        · rw [htr] at hm1
          rw [List.dropLast_cons₂] at hm1
          rcases List.mem_cons.mp hm1 with rfl | hm2
          · exact ⟨e, h404, Or.inl ho⟩
          · have := ih st (some e) m1
            rw [htr] at this
            exact this (by simpa using hm2)
      · simp [streamLoop, ho, h404] at hm1
    · simp [streamLoop, ho] at hm1
    · by_cases h404 : isNotFoundError e
      · simp only [streamLoop, ho, if_pos h404] at hm1
        rcases htr : (streamLoop outcome { st with model := some m } (some e) ms).2.2.2
            with _ | ⟨x, xs⟩
        · rw [htr] at hm1; simp at hm1
        · rw [htr] at hm1
          rw [List.dropLast_cons₂] at hm1
          rcases List.mem_cons.mp hm1 with rfl | hm2
          · exact ⟨e, h404, Or.inr ⟨cs, ho⟩⟩
          · have := ih { st with model := some m } (some e) m1
            rw [htr] at this
            exact this (by simpa using hm2)
      · simp [streamLoop, ho, h404] at hm1

/-- The chunks the streaming loop delivers are the concatenation, in
attempt order, of the chunks each attempted model's stream yielded. -/
theorem streamLoop_chunks (outcome : String → StreamAttempt) :
    ∀ (models : List String) (st : AnthropicState) (lastErr : Option String),
      (streamLoop outcome st lastErr models).1 =
        (streamLoop outcome st lastErr models).2.2.2.flatMap
          (fun m => chunksOfAttempt (outcome m)) := by
  intro models
  induction models with
  | nil => intro st lastErr; rfl
  | cons m ms ih =>
    intro st lastErr
    rcases ho : outcome m with e | ⟨cs, _ | e⟩
    · by_cases h404 : isNotFoundError e
      · simp [streamLoop, ho, h404, chunksOfAttempt, ih st (some e)]
      · simp [streamLoop, ho, h404, chunksOfAttempt]
    · simp [streamLoop, ho, chunksOfAttempt]
    · by_cases h404 : isNotFoundError e
      · simp [streamLoop, ho, h404, chunksOfAttempt,
          ih { st with model := some m } (some e)]
      · simp [streamLoop, ho, h404, chunksOfAttempt]

/-- A streaming loop run that ends without an exception consumed its
last attempted model's stream to completion and left that model stored
in the provider state. -/
theorem streamLoop_complete (outcome : String → StreamAttempt) :
    ∀ (models : List String) (st : AnthropicState) (lastErr : Option String),
      (streamLoop outcome st lastErr models).2.1 = none →
      ∃ m cs, (streamLoop outcome st lastErr models).2.2.2.getLast? = some m
        ∧ outcome m = StreamAttempt.streamed cs none
        ∧ (streamLoop outcome st lastErr models).2.2.1 = { st with model := some m } := by
  intro models
  induction models with
  | nil => intro st lastErr h; simp [streamLoop] at h
  | cons m ms ih =>
    intro st lastErr h
    rcases ho : outcome m with e | ⟨cs, _ | e⟩
    · by_cases h404 : isNotFoundError e
      · simp only [streamLoop, ho, if_pos h404] at h ⊢
        obtain ⟨m2, cs2, hm2, hout, hst⟩ := ih st (some e) h
        refine ⟨m2, cs2, ?_, hout, hst⟩
        rcases htr : (streamLoop outcome st (some e) ms).2.2.2 with _ | ⟨x, xs⟩
        · rw [htr] at hm2; simp at hm2
        · rw [htr] at hm2
          rw [List.getLast?_cons_cons]
          exact hm2
      · simp [streamLoop, ho, h404] at h
    · refine ⟨m, cs, ?_, ho, ?_⟩
      · simp [streamLoop, ho]
      · simp [streamLoop, ho]
    · by_cases h404 : isNotFoundError e
      · simp only [streamLoop, ho, if_pos h404] at h ⊢
        obtain ⟨m2, cs2, hm2, hout, hst⟩ := ih { st with model := some m } (some e) h
        refine ⟨m2, cs2, ?_, hout, ?_⟩
        · rcases htr : (streamLoop outcome { st with model := some m } (some e) ms).2.2.2
              with _ | ⟨x, xs⟩
          · rw [htr] at hm2; simp at hm2
          · rw [htr] at hm2
            rw [List.getLast?_cons_cons]
            exact hm2
        · rw [hst]
      · simp [streamLoop, ho, h404] at h

/-- The provider state left by the streaming loop is the input state or
the input state with an attempted model stored in `self.model`. -/
theorem streamLoop_state_shape (outcome : String → StreamAttempt) :
    ∀ (models : List String) (st : AnthropicState) (lastErr : Option String),
      (streamLoop outcome st lastErr models).2.2.1 = st
      ∨ ∃ m ∈ (streamLoop outcome st lastErr models).2.2.2,
          (streamLoop outcome st lastErr models).2.2.1 = { st with model := some m } := by
  intro models
  induction models with
  | nil => intro st lastErr; exact Or.inl rfl
  | cons m ms ih =>
    intro st lastErr
    rcases ho : outcome m with e | ⟨cs, _ | e⟩
    · by_cases h404 : isNotFoundError e
      · rcases ih st (some e) with hst | ⟨m2, hm2, hst⟩
        · exact Or.inl (by simp [streamLoop, ho, h404, hst])
        · refine Or.inr ⟨m2, ?_, ?_⟩
          · simp only [streamLoop, ho, if_pos h404]
            exact List.mem_cons_of_mem m hm2
          · simp only [streamLoop, ho, if_pos h404]
            exact hst
      · exact Or.inl (by simp [streamLoop, ho, h404])
    · exact Or.inr ⟨m, by simp [streamLoop, ho], by simp [streamLoop, ho]⟩
    · by_cases h404 : isNotFoundError e
      · rcases ih { st with model := some m } (some e) with hst | ⟨m2, hm2, hst⟩
        · refine Or.inr ⟨m, ?_, ?_⟩
          · simp only [streamLoop, ho, if_pos h404]
            exact List.mem_cons_self m _
          · simp only [streamLoop, ho, if_pos h404]
            exact hst
        · refine Or.inr ⟨m2, ?_, ?_⟩
          · simp only [streamLoop, ho, if_pos h404]
            exact List.mem_cons_of_mem m hm2
          · simp only [streamLoop, ho, if_pos h404]
            rw [hst]
      · exact Or.inr ⟨m, by simp [streamLoop, ho, h404], by simp [streamLoop, ho, h404]⟩

/-- When the last attempted model's stream failed to open with an error
outside the "model not found" class, the loop re-raised that error. -/
theorem streamLoop_openAbort (outcome : String → StreamAttempt) :
    ∀ (models : List String) (st : AnthropicState) (lastErr : Option String)
      (m : String) (e : String),
      (streamLoop outcome st lastErr models).2.2.2.getLast? = some m →
      outcome m = StreamAttempt.openError e → isNotFoundError e = false →
      (streamLoop outcome st lastErr models).2.1 = some e := by
  intro models
  induction models with
  | nil => intro st lastErr m e hm _ _; simp [streamLoop] at hm
  | cons m0 ms ih =>
    intro st lastErr m e hm hout h404
    rcases ho : outcome m0 with e2 | ⟨cs2, _ | e2⟩
    · by_cases h4042 : isNotFoundError e2
      · simp only [streamLoop, ho, if_pos h4042] at hm ⊢
        rcases htr : (streamLoop outcome st (some e2) ms).2.2.2 with _ | ⟨x, xs⟩
        · rw [htr] at hm
          simp at hm
          subst hm
          rw [ho] at hout
          cases hout
          rw [h4042] at h404
          cases h404
        · rw [htr] at hm
          have hm2 : (streamLoop outcome st (some e2) ms).2.2.2.getLast? = some m := by
            rw [htr]; simpa using hm
          exact ih st (some e2) m e hm2 hout h404
      · simp only [streamLoop, ho, if_neg h4042] at hm ⊢
        simp at hm
        subst hm
        rw [ho] at hout
        cases hout
        rfl
    · simp only [streamLoop, ho] at hm
      simp at hm
      subst hm
      rw [ho] at hout
      cases hout
    · by_cases h4042 : isNotFoundError e2
      · simp only [streamLoop, ho, if_pos h4042] at hm ⊢
        rcases htr : (streamLoop outcome { st with model := some m0 } (some e2) ms).2.2.2
            with _ | ⟨x, xs⟩
        · rw [htr] at hm
          simp at hm
          subst hm
          rw [ho] at hout
          cases hout
        · rw [htr] at hm
          have hm2 : (streamLoop outcome { st with model := some m0 }
              (some e2) ms).2.2.2.getLast? = some m := by
            rw [htr]; simpa using hm
          exact ih { st with model := some m0 } (some e2) m e hm2 hout h404
      · simp only [streamLoop, ho, if_neg h4042] at hm ⊢
        simp at hm
        subst hm
        rw [ho] at hout
        cases hout

/-- When the last attempted model's stream failed mid-consumption with
an error outside the "model not found" class, the loop re-raised that
error — with `self.model` already set to the aborting model, since the
source updates it at stream open, before consumption. -/
theorem streamLoop_midAbort (outcome : String → StreamAttempt) :
    ∀ (models : List String) (st : AnthropicState) (lastErr : Option String)
      (m : String) (cs : List String) (e : String),
      (streamLoop outcome st lastErr models).2.2.2.getLast? = some m →
      outcome m = StreamAttempt.streamed cs (some e) → isNotFoundError e = false →
      (streamLoop outcome st lastErr models).2.1 = some e
        ∧ (streamLoop outcome st lastErr models).2.2.1 = { st with model := some m } := by
  intro models
  induction models with
  | nil => intro st lastErr m cs e hm _ _; simp [streamLoop] at hm
  | cons m0 ms ih =>
    intro st lastErr m cs e hm hout h404
    rcases ho : outcome m0 with e2 | ⟨cs2, _ | e2⟩
    · by_cases h4042 : isNotFoundError e2
      · simp only [streamLoop, ho, if_pos h4042] at hm ⊢
        rcases htr : (streamLoop outcome st (some e2) ms).2.2.2 with _ | ⟨x, xs⟩
        · rw [htr] at hm
          simp at hm
          subst hm
          rw [ho] at hout
          cases hout
        · rw [htr] at hm
          have hm2 : (streamLoop outcome st (some e2) ms).2.2.2.getLast? = some m := by
            rw [htr]; simpa using hm
          exact ih st (some e2) m cs e hm2 hout h404
      · simp only [streamLoop, ho, if_neg h4042] at hm ⊢
        simp at hm
        subst hm
        rw [ho] at hout
        cases hout
    · simp only [streamLoop, ho] at hm ⊢
      simp at hm
      subst hm
      rw [ho] at hout
      cases hout
    · by_cases h4042 : isNotFoundError e2
      · simp only [streamLoop, ho, if_pos h4042] at hm ⊢
        rcases htr : (streamLoop outcome { st with model := some m0 } (some e2) ms).2.2.2
            with _ | ⟨x, xs⟩
        · rw [htr] at hm
          simp at hm
          subst hm
          rw [ho] at hout
          cases hout
          rw [h4042] at h404
          cases h404
        · rw [htr] at hm
          have hm2 : (streamLoop outcome { st with model := some m0 }
              (some e2) ms).2.2.2.getLast? = some m := by
            rw [htr]; simpa using hm
          obtain ⟨herr, hst⟩ := ih { st with model := some m0 } (some e2) m cs e
            hm2 hout h404
          refine ⟨herr, ?_⟩
          rw [hst]
      · simp only [streamLoop, ho, if_neg h4042] at hm ⊢
        simp at hm
        subst hm
        rw [ho] at hout
        cases hout
        exact ⟨rfl, rfl⟩

/-- When every model fails — at open or mid-consumption — with a
"model not found" class of error, the streaming loop attempts all of
them and raises the aggregate message wrapping the last model's
error. -/
theorem streamLoop_allNotFound (outcome : String → StreamAttempt) :
    ∀ (models : List String) (st : AnthropicState) (lastErr : Option String),
      (∀ m ∈ models, ∃ e, isNotFoundError e = true ∧
        (outcome m = StreamAttempt.openError e
          ∨ ∃ cs, outcome m = StreamAttempt.streamed cs (some e))) →
      models ≠ [] →
      ∃ m e, models.getLast? = some m
        ∧ (outcome m = StreamAttempt.openError e
          ∨ ∃ cs, outcome m = StreamAttempt.streamed cs (some e))
        ∧ (streamLoop outcome st lastErr models).2.1 =
            some ("Failed to stream with any Claude model: " ++ e)
        ∧ (streamLoop outcome st lastErr models).2.2.2 = models := by
  intro models
  induction models with
  | nil => intro st lastErr _ hne; exact absurd rfl hne
  | cons m0 ms ih =>
    intro st lastErr hall _
    obtain ⟨e0, h404, hshape⟩ := hall m0 (List.mem_cons_self m0 ms)
    rcases hms : ms with _ | ⟨m1, ms1⟩
    · subst hms
      rcases hshape with hopen | ⟨cs0, hmid⟩
      · exact ⟨m0, e0, rfl, Or.inl hopen,
          by simp [streamLoop, hopen, h404, pyStrOfOpt],
          by simp [streamLoop, hopen, h404]⟩
      · exact ⟨m0, e0, rfl, Or.inr ⟨cs0, hmid⟩,
          by simp [streamLoop, hmid, h404, pyStrOfOpt],
          by simp [streamLoop, hmid, h404]⟩
    · subst hms
      have hne2 : m1 :: ms1 ≠ ([] : List String) := by simp
      have hall2 : ∀ m ∈ m1 :: ms1, ∃ e, isNotFoundError e = true ∧
          (outcome m = StreamAttempt.openError e
            ∨ ∃ cs, outcome m = StreamAttempt.streamed cs (some e)) :=
        fun m hm => hall m (List.mem_cons_of_mem m0 hm)
      rcases hshape with hopen | ⟨cs0, hmid⟩
      · obtain ⟨m, e, hlast, hsh, herr, htr⟩ := ih st (some e0) hall2 hne2
        have hstep := streamLoop_cons_openNotFound outcome st lastErr m0 (m1 :: ms1) e0
          hopen h404
        refine ⟨m, e, ?_, hsh, ?_, ?_⟩
        · rw [List.getLast?_cons_cons]
          exact hlast
        · rw [hstep]; exact herr
        · rw [hstep]; simp [htr]
      · obtain ⟨m, e, hlast, hsh, herr, htr⟩ := ih { st with model := some m0 } (some e0)
          hall2 hne2
        have hstep := streamLoop_cons_midNotFound outcome st lastErr m0 (m1 :: ms1) cs0 e0
          hmid h404
        refine ⟨m, e, ?_, hsh, ?_, ?_⟩
        · rw [List.getLast?_cons_cons]
          exact hlast
        · rw [hstep]; exact herr
        · rw [hstep]; simp [htr]

/-- C3 (amended): on every `generate` and `stream` call of an available
provider instance, models are attempted in `MODEL_FALLBACKS` order from
the head of the list — irrespective of the model remembered in the
provider state; the loop moves past a model only when it failed with a
"model not found" class of error, for `stream` either at stream open or
mid-consumption, in the latter case after that model's chunks were
already delivered; any other error class aborts immediately, re-raising
the original error: `generate` aborts with the provider state
unchanged, while `stream` sets `self.model` at stream open, before
consumption, so a mid-consumption abort leaves the aborting model
remembered (an open failure leaves the state as the previous attempts
left it); the chunks a `stream` call delivers are the concatenation of
the attempted models' chunks in attempt order, and its resulting state
is always the input state or the input state remembering one attempted
model; on success the successful model is stored in the provider state
(remembered, but not used as the starting point of the next call); and
when every model fails with the "model not found" class, the call
attempts all models and raises the aggregate message wrapping the last
model's error. -/
theorem anthropic_model_fallback (outcomeG : String → AttemptResult String)
    (outcomeS : String → StreamAttempt) (st : AnthropicState)
    (h : st.available = true) :
    (anthropicGenerate outcomeG st).2.2 <+: MODEL_FALLBACKS
    ∧ (anthropicGenerate outcomeG st).2.2.head? = some "claude-3-5-sonnet-20241022"
    ∧ (∀ m ∈ (anthropicGenerate outcomeG st).2.2.dropLast,
        ∃ e, outcomeG m = AttemptResult.failure e ∧ isNotFoundError e = true)
    ∧ (∀ t, (anthropicGenerate outcomeG st).1 = Except.ok t →
        ∃ m, (anthropicGenerate outcomeG st).2.2.getLast? = some m
          ∧ outcomeG m = AttemptResult.success t
          ∧ (anthropicGenerate outcomeG st).2.1 = { st with model := some m })
    ∧ (∀ m e, (anthropicGenerate outcomeG st).2.2.getLast? = some m →
        outcomeG m = AttemptResult.failure e → isNotFoundError e = false →
        (anthropicGenerate outcomeG st).1 = Except.error e
          ∧ (anthropicGenerate outcomeG st).2.1 = st)
    ∧ ((∀ m ∈ MODEL_FALLBACKS, ∃ e, outcomeG m = AttemptResult.failure e
          ∧ isNotFoundError e = true) →
        ∃ m e, MODEL_FALLBACKS.getLast? = some m ∧ outcomeG m = AttemptResult.failure e
          ∧ (anthropicGenerate outcomeG st).1 =
              Except.error ("Failed to generate with any Claude model: " ++ e)
          ∧ (anthropicGenerate outcomeG st).2.2 = MODEL_FALLBACKS)
    ∧ (anthropicStream outcomeS st).2.2.2 <+: MODEL_FALLBACKS
    ∧ (anthropicStream outcomeS st).2.2.2.head? = some "claude-3-5-sonnet-20241022"
    ∧ (∀ m ∈ (anthropicStream outcomeS st).2.2.2.dropLast,
        ∃ e, isNotFoundError e = true ∧
          (outcomeS m = StreamAttempt.openError e
            ∨ ∃ cs, outcomeS m = StreamAttempt.streamed cs (some e)))
    ∧ (anthropicStream outcomeS st).1 =
        (anthropicStream outcomeS st).2.2.2.flatMap (fun m => chunksOfAttempt (outcomeS m))
    ∧ ((anthropicStream outcomeS st).2.1 = none →
        ∃ m cs, (anthropicStream outcomeS st).2.2.2.getLast? = some m
          ∧ outcomeS m = StreamAttempt.streamed cs none
          ∧ (anthropicStream outcomeS st).2.2.1 = { st with model := some m })
    ∧ ((anthropicStream outcomeS st).2.2.1 = st
        ∨ ∃ m ∈ (anthropicStream outcomeS st).2.2.2,
            (anthropicStream outcomeS st).2.2.1 = { st with model := some m })
    ∧ (∀ m e, (anthropicStream outcomeS st).2.2.2.getLast? = some m →
        outcomeS m = StreamAttempt.openError e → isNotFoundError e = false →
        (anthropicStream outcomeS st).2.1 = some e)
    ∧ (∀ m cs e, (anthropicStream outcomeS st).2.2.2.getLast? = some m →
        outcomeS m = StreamAttempt.streamed cs (some e) → isNotFoundError e = false →
        (anthropicStream outcomeS st).2.1 = some e
          ∧ (anthropicStream outcomeS st).2.2.1 = { st with model := some m })
    ∧ ((∀ m ∈ MODEL_FALLBACKS, ∃ e, isNotFoundError e = true ∧
          (outcomeS m = StreamAttempt.openError e
            ∨ ∃ cs, outcomeS m = StreamAttempt.streamed cs (some e))) →
        ∃ m e, MODEL_FALLBACKS.getLast? = some m
          ∧ (outcomeS m = StreamAttempt.openError e
            ∨ ∃ cs, outcomeS m = StreamAttempt.streamed cs (some e))
          ∧ (anthropicStream outcomeS st).2.1 =
              some ("Failed to stream with any Claude model: " ++ e)
          ∧ (anthropicStream outcomeS st).2.2.2 = MODEL_FALLBACKS) := by
  have hg : anthropicGenerate outcomeG st =
      tryModelsLoop "Failed to generate with any Claude model: " outcomeG st none
        MODEL_FALLBACKS := by
    simp [anthropicGenerate, h]
  have hstream : anthropicStream outcomeS st = streamLoop outcomeS st none MODEL_FALLBACKS := by
    simp [anthropicStream, h]
  rw [hg, hstream]
  refine ⟨tryModelsLoop_trace_isPrefix _ outcomeG MODEL_FALLBACKS st none,
    tryModelsLoop_head _ outcomeG st none _ _,
    tryModelsLoop_dropLast_notFound _ outcomeG MODEL_FALLBACKS st none,
    fun t ht => tryModelsLoop_ok _ outcomeG MODEL_FALLBACKS st none t ht,
    fun m e hm ho h404 => tryModelsLoop_abort _ outcomeG MODEL_FALLBACKS st none m e hm ho h404,
    fun hall => ?_,
    streamLoop_trace_isPrefix outcomeS MODEL_FALLBACKS st none,
    streamLoop_head outcomeS st none _ _,
    streamLoop_dropLast_notFound outcomeS MODEL_FALLBACKS st none,
    streamLoop_chunks outcomeS MODEL_FALLBACKS st none,
    fun hnone => streamLoop_complete outcomeS MODEL_FALLBACKS st none hnone,
    streamLoop_state_shape outcomeS MODEL_FALLBACKS st none,
    fun m e hm ho h404 => streamLoop_openAbort outcomeS MODEL_FALLBACKS st none m e hm ho h404,
    fun m cs e hm ho h404 =>
      streamLoop_midAbort outcomeS MODEL_FALLBACKS st none m cs e hm ho h404,
    fun hall => ?_⟩
  · obtain ⟨m, e, hlast, hout, hres, _, htr⟩ :=
      tryModelsLoop_allNotFound "Failed to generate with any Claude model: " outcomeG
        MODEL_FALLBACKS st none hall (by decide)
    exact ⟨m, e, hlast, hout, hres, htr⟩
  · exact streamLoop_allNotFound outcomeS MODEL_FALLBACKS st none hall (by decide)

/-- C3 witness: concrete generate and stream runs where the first model
is not found and the second succeeds. -/
theorem anthropic_model_fallback_witness :
    (anthropicGenerate (fun m => if m == "claude-3-5-sonnet-20241022"
        then AttemptResult.failure "404 not_found" else AttemptResult.success "ok")
      ⟨true, none⟩).2.2.head? = some "claude-3-5-sonnet-20241022"
    ∧ (anthropicGenerate (fun m => if m == "claude-3-5-sonnet-20241022"
        then AttemptResult.failure "404 not_found" else AttemptResult.success "ok")
      ⟨true, none⟩).2.2 <+: MODEL_FALLBACKS
    ∧ (anthropicStream (fun m => if m == "claude-3-5-sonnet-20241022"
        then StreamAttempt.openError "404 not_found"
        else StreamAttempt.streamed ["chunk"] none)
      ⟨true, none⟩).2.2.2.head? = some "claude-3-5-sonnet-20241022"
    ∧ (anthropicStream (fun m => if m == "claude-3-5-sonnet-20241022"
        then StreamAttempt.openError "404 not_found"
        else StreamAttempt.streamed ["chunk"] none)
      ⟨true, none⟩).2.2.2 <+: MODEL_FALLBACKS :=
  ⟨(anthropic_model_fallback
      (fun m => if m == "claude-3-5-sonnet-20241022"
        then AttemptResult.failure "404 not_found" else AttemptResult.success "ok")
      (fun m => if m == "claude-3-5-sonnet-20241022"
        then StreamAttempt.openError "404 not_found"
        else StreamAttempt.streamed ["chunk"] none) ⟨true, none⟩ rfl).2.1,
    (anthropic_model_fallback
      (fun m => if m == "claude-3-5-sonnet-20241022"
        then AttemptResult.failure "404 not_found" else AttemptResult.success "ok")
      (fun m => if m == "claude-3-5-sonnet-20241022"
        then StreamAttempt.openError "404 not_found"
        else StreamAttempt.streamed ["chunk"] none) ⟨true, none⟩ rfl).1,
    (anthropic_model_fallback
      (fun m => if m == "claude-3-5-sonnet-20241022"
        then AttemptResult.failure "404 not_found" else AttemptResult.success "ok")
      (fun m => if m == "claude-3-5-sonnet-20241022"
        then StreamAttempt.openError "404 not_found"
        else StreamAttempt.streamed ["chunk"] none) ⟨true, none⟩ rfl).2.2.2.2.2.2.2.1,
    (anthropic_model_fallback
      (fun m => if m == "claude-3-5-sonnet-20241022"
        then AttemptResult.failure "404 not_found" else AttemptResult.success "ok")
      (fun m => if m == "claude-3-5-sonnet-20241022"
        then StreamAttempt.openError "404 not_found"
        else StreamAttempt.streamed ["chunk"] none) ⟨true, none⟩ rfl).2.2.2.2.2.2.1⟩

/-- C3 counterexample: the claim that the remembered model is "used as
the preferred starting point for the next generate/stream call" is
false.  A first call whose head model is not found succeeds with the
second model and remembers it in the provider state; a second call from
that very state nevertheless attempts the head of `MODEL_FALLBACKS`
first (and, succeeding there, attempts only it), not the remembered
model. -/
theorem anthropic_preferred_model_unused :
    (anthropicGenerate (fun m => if m == "claude-3-5-sonnet-20241022"
        then AttemptResult.failure "404 not_found" else AttemptResult.success "ok")
      ⟨true, none⟩).2.1.model = some "claude-3-5-sonnet-20240620"
    ∧ (anthropicGenerate (fun _ => AttemptResult.success "fresh")
        ⟨true, some "claude-3-5-sonnet-20240620"⟩).2.2 = ["claude-3-5-sonnet-20241022"]
    ∧ (anthropicGenerate (fun _ => AttemptResult.success "fresh")
        ⟨true, some "claude-3-5-sonnet-20240620"⟩).2.2 ≠ ["claude-3-5-sonnet-20240620"] :=
  ⟨by decide, by decide, by decide⟩

/-! ## Claim C7: LLM failure aborts the pipeline without caching -/

/-- `find?` over a list whose prefix contains no match returns the first
match after it. -/
theorem find?_append_first {α : Type} (p : α → Bool) (a : α) (l2 : List α) :
    ∀ l1 : List α, (∀ b ∈ l1, p b = false) → p a = true →
      (l1 ++ a :: l2).find? p = some a := by
  intro l1
  induction l1 with
  | nil => intro _ ha; simp [List.find?, ha]
  | cons b bs ih =>
    intro hnone ha
    have hb := hnone b (List.mem_cons_self b bs)
    simp only [List.cons_append, List.find?, hb]
    exact ih (fun x hx => hnone x (List.mem_cons_of_mem b hx)) ha

/-- The store returned by `CacheService.get` is contained in the input
store, and any entry it dropped was an expired entry under the queried
key (the lazy eviction is the only mutation). -/
theorem cacheGet_snd_entries (ttl now : Int) (c : Cache) (text : String) :
    (∀ x ∈ (cacheGet ttl now c text).2, x ∈ c)
    ∧ (∀ x ∈ c, x ∉ (cacheGet ttl now c text).2 →
        now - x.2.2 > ttl ∧ x.1 = generateKey text) := by
  rcases hfind : c.find? (fun e => e.1 == generateKey text) with _ | e
  · constructor
    · intro x hx
      simpa [cacheGet, hfind] using hx
    · intro x hx hnx
      exact absurd (by simpa [cacheGet, hfind] using hx) hnx
  · by_cases hexp : now - e.2.2 > ttl
    · have hsnd : (cacheGet ttl now c text).2 =
          c.eraseP (fun x => x.1 == generateKey text) := by
        simp [cacheGet, hfind, hexp]
      have hpe := List.find?_some hfind
      have hme : e ∈ c := List.mem_of_find?_eq_some hfind
      obtain ⟨a, l1, l2, hl1, hpa, hc, herase⟩ :=
        @List.exists_of_eraseP _ (fun x => x.1 == generateKey text) c e hme hpe
      constructor
      · intro x hx
        rw [hsnd] at hx
        exact (List.eraseP_sublist c).subset hx
      · intro x hx hnx
        rw [hsnd, herase] at hnx
        rw [hc] at hx
        rcases List.mem_append.mp hx with hx1 | hx2
        · exact absurd (List.mem_append.mpr (Or.inl hx1)) hnx
        · rcases List.mem_cons.mp hx2 with rfl | hx3
          · have hfa : c.find? (fun x => x.1 == generateKey text) = some x := by
              rw [hc]
              exact find?_append_first _ x l2 l1 (by simpa using hl1) hpa
            rw [hfind] at hfa
            cases hfa
            exact ⟨hexp, by simpa using hpe⟩
          · exact absurd (List.mem_append.mpr (Or.inr hx3)) hnx
    · constructor
      · intro x hx
        simpa [cacheGet, hfind, hexp] using hx
      · intro x hx hnx
        exact absurd (by simpa [cacheGet, hfind, hexp] using hx) hnx

/-- C7 (amended): when LLM generation raises during `explain`, the error
is surfaced to the caller, the pipeline aborts, and nothing is stored:
the resulting cache is the store left by the initial lookup, which
contains no new entry and differs from the cache before the request at
most by the lazy eviction of an expired entry under the request's key
performed by that lookup. -/
theorem explain_llm_failure_not_cached (env : ExplainEnv) (ttl now : Int) (post : String)
    (imageUrl : Option String) (useCache : Bool) (cache : Cache) (e : String)
    (hllm : ∀ p d, env.llmGenerate p d = Except.error e)
    (hmiss : useCache = true →
      (cacheGet ttl now cache (explainCacheKey post imageUrl)).1 = none) :
    (explain env ttl now post imageUrl useCache cache).1 = Except.error e
    ∧ (explain env ttl now post imageUrl useCache cache).2.1 =
        (if useCache then (cacheGet ttl now cache (explainCacheKey post imageUrl)).2
         else cache)
    ∧ (∀ x ∈ (explain env ttl now post imageUrl useCache cache).2.1, x ∈ cache)
    ∧ (∀ x ∈ cache, x ∉ (explain env ttl now post imageUrl useCache cache).2.1 →
        now - x.2.2 > ttl ∧ x.1 = generateKey (explainCacheKey post imageUrl)) := by
  cases useCache with
  | false =>
    have hres : explain env ttl now post imageUrl false cache =
        (Except.error e, cache,
          (match imageUrl with
           | some u => if u == "" then (none, [])
             else (env.imageProc u, [PipelineStep.imageCall u])
           | none => ((none : Option ImagePayload), ([] : List PipelineStep))).2 ++
          [PipelineStep.queryExtractStep (extractSearchQueries post),
           PipelineStep.searchCall (extractSearchQueries post),
           PipelineStep.llmCall (buildExplanationPrompt post
             (env.searchFn (extractSearchQueries post)))]) := by
      simp only [explain, Bool.false_eq_true, if_false, hllm]
    refine ⟨by rw [hres], by rw [hres]; simp, by rw [hres]; intro x hx; exact hx, ?_⟩
    intro x hx hnx
    rw [hres] at hnx
    exact absurd hx hnx
  | true =>
    have hm := hmiss rfl
    have hres : explain env ttl now post imageUrl true cache =
        (Except.error e, (cacheGet ttl now cache (explainCacheKey post imageUrl)).2,
          (match imageUrl with
           | some u => if u == "" then (none, [])
             else (env.imageProc u, [PipelineStep.imageCall u])
           | none => ((none : Option ImagePayload), ([] : List PipelineStep))).2 ++
          [PipelineStep.queryExtractStep (extractSearchQueries post),
           PipelineStep.searchCall (extractSearchQueries post),
           PipelineStep.llmCall (buildExplanationPrompt post
             (env.searchFn (extractSearchQueries post)))]) := by
      simp only [explain, if_true, hm, hllm]
    obtain ⟨hsub, hdrop⟩ := cacheGet_snd_entries ttl now cache (explainCacheKey post imageUrl)
    refine ⟨by rw [hres], by rw [hres]; simp, ?_, ?_⟩
    · intro x hx
      rw [hres] at hx
      exact hsub x hx
    · intro x hx hnx
      rw [hres] at hnx
      exact hdrop x hx hnx

/-- C7 witness: with an always-failing LLM and an empty cache, the error
surfaces and the cache stays empty. -/
theorem explain_llm_failure_not_cached_witness :
    (explain failEnv 100 200 "hi" none true []).1 = Except.error "boom"
    ∧ (explain failEnv 100 200 "hi" none true []).2.1 =
        (if true then (cacheGet 100 200 [] (explainCacheKey "hi" none)).2 else []) :=
  ⟨(explain_llm_failure_not_cached failEnv 100 200 "hi" none true [] "boom"
      (fun _ _ => rfl) (fun _ => rfl)).1,
    (explain_llm_failure_not_cached failEnv 100 200 "hi" none true [] "boom"
      (fun _ _ => rfl) (fun _ => rfl)).2.1⟩

/-- C7 counterexample: the claim that the cache state after a failed
request equals the cache state before it is false as stated — when the
cache holds an expired entry under the request's key, the initial
lookup evicts it, so the failed request does mutate the cache. -/
theorem explain_llm_failure_cache_changed :
    (explain failEnv 100 200 "hi" none true [("explain:hi:", ⟨["old"], []⟩, 0)]).1 =
        Except.error "boom"
    ∧ (explain failEnv 100 200 "hi" none true [("explain:hi:", ⟨["old"], []⟩, 0)]).2.1 = []
    ∧ ([("explain:hi:", ⟨["old"], []⟩, 0)] : Cache) ≠ [] :=
  ⟨by decide, by decide, by decide⟩

/-! ## Claim C8: streaming event order -/

/-- A truncated snippet never exceeds 200 characters. -/
theorem truncSnippet_length (s : Option String) (t : String)
    (h : truncSnippet s = some t) : t.length ≤ 200 := by
  rcases s with _ | u
  · cases h
  · by_cases hu : u == ""
    · simp [truncSnippet, hu] at h
    · simp only [truncSnippet] at h
      rw [if_neg hu] at h
      cases h
      have hlen : (String.mk (u.data.take 200)).length = (u.data.take 200).length := rfl
      rw [hlen]
      exact List.length_take_le 200 u.data

/-- Chunk events are never sources events. -/
theorem countP_sources_map_chunk (l : List String) :
    (l.map SseEvent.chunk).countP isSourcesEvent = 0 := by
  induction l with
  | nil => rfl
  | cons c cs ih => simp [List.countP_cons, isSourcesEvent, ih]

/-- A successful generator run emits exactly one sources event: the
head of the event list, with chunk events and a sources-free tail after
it. -/
theorem countP_route_ok (d : List Source) (l : List String) (tail : List SseEvent)
    (htail : tail.countP isSourcesEvent = 0) :
    (((StreamItem.sources d :: l.map StreamItem.chunk).map sseOfItem) ++ tail).countP
      isSourcesEvent = 1 := by
  rw [List.map_cons, List.map_map, List.cons_append, List.countP_cons]
  have hmap : (List.map (sseOfItem ∘ StreamItem.chunk) l) = l.map SseEvent.chunk := rfl
  rw [hmap, List.countP_append, countP_sources_map_chunk, htail]
  simp [sseOfItem, isSourcesEvent]

/-- C8: the `/explain/stream` route emits, in order, exactly one
`sources` event carrying the full non-cited-filtered result list with
snippets truncated to 200 characters, then the LLM's chunks in
generation order, then one terminal `done` event; and when any step
raises, the emitted events end with a single `error` event carrying the
message — an error before the sources are yielded produces only the
`error` event, and an error during generation ends the stream right
after the delivered chunks, with no `done` and nothing after the
error. -/
theorem explain_stream_event_order (searchOutcome : Except String (List SearchResult))
    (llmChunks : List String) (llmErr : Option String) :
    (∀ rs, searchOutcome = Except.ok rs → llmErr = none →
      routeStreamEvents (explainStreamRun searchOutcome llmChunks llmErr) =
        SseEvent.sources (streamSources rs) ::
          (llmChunks.map SseEvent.chunk ++ [SseEvent.done]))
    ∧ (∀ rs e, searchOutcome = Except.ok rs → llmErr = some e →
        routeStreamEvents (explainStreamRun searchOutcome llmChunks llmErr) =
          SseEvent.sources (streamSources rs) ::
            (llmChunks.map SseEvent.chunk ++ [SseEvent.error e]))
    ∧ (∀ e, searchOutcome = Except.error e →
        routeStreamEvents (explainStreamRun searchOutcome llmChunks llmErr) =
          [SseEvent.error e])
    ∧ (∀ rs, searchOutcome = Except.ok rs →
        (routeStreamEvents (explainStreamRun searchOutcome llmChunks llmErr)).countP
          isSourcesEvent = 1)
    ∧ (∀ rs, streamSources rs = rs.enum.map (fun p => mkSource (p.1 + 1) p.2))
    ∧ (∀ rs, ∀ src ∈ streamSources rs, ∀ t, src.snippet = some t → t.length ≤ 200) := by
  refine ⟨?_, ?_, ?_, ?_, fun rs => rfl, ?_⟩
  · intro rs hok hnone
    subst hok; subst hnone
    simp [routeStreamEvents, explainStreamRun, sseOfItem, List.map_map, Function.comp]
  · intro rs e hok herr
    subst hok; subst herr
    simp [routeStreamEvents, explainStreamRun, sseOfItem, List.map_map, Function.comp]
  · intro e herr
    subst herr
    simp [routeStreamEvents, explainStreamRun]
  · intro rs hok
    subst hok
    rcases llmErr with _ | e
    · exact countP_route_ok (streamSources rs) llmChunks [SseEvent.done] (by decide)
    · exact countP_route_ok (streamSources rs) llmChunks [SseEvent.error e]
        (by simp [List.countP_cons, isSourcesEvent])
  · intro rs src hsrc t ht
    unfold streamSources at hsrc
    obtain ⟨p, _, hp⟩ := List.mem_map.mp hsrc
    have : src.snippet = truncSnippet p.2.snippet := by rw [← hp]; rfl
    rw [this] at ht
    exact truncSnippet_length _ _ ht

/-- C8 witness: a concrete successful run and a concrete mid-stream
failure produce the claimed event sequences. -/
theorem explain_stream_event_order_witness :
    routeStreamEvents (explainStreamRun (Except.ok [⟨"t", "u", some "s", none⟩])
        ["a", "b"] none) =
      SseEvent.sources (streamSources [⟨"t", "u", some "s", none⟩]) ::
        (["a", "b"].map SseEvent.chunk ++ [SseEvent.done])
    ∧ routeStreamEvents (explainStreamRun (Except.error "search down") [] none) =
        [SseEvent.error "search down"] :=
  ⟨(explain_stream_event_order (Except.ok [⟨"t", "u", some "s", none⟩]) ["a", "b"]
      none).1 [⟨"t", "u", some "s", none⟩] rfl rfl,
    (explain_stream_event_order (Except.error "search down") [] none).2.2.1
      "search down" rfl⟩

/-! ## Claim C9: shape of the extracted queries -/

/-- Invariant of the deduplication fold of `extract_search_queries`:
every kept query's key is recorded in the seen set and longer than 3
characters, and the kept keys are pairwise distinct. -/
theorem dedupQueries_foldl_invariant (qs : List String) :
    ∀ acc : List String × List String,
      (∀ q ∈ acc.2, pyStrip (pyLower q) ∈ acc.1 ∧ (pyStrip (pyLower q)).length > 3) →
      (acc.2.map (fun q => pyStrip (pyLower q))).Nodup →
      (∀ q ∈ (qs.foldl dedupQueriesStep acc).2,
          pyStrip (pyLower q) ∈ (qs.foldl dedupQueriesStep acc).1
          ∧ (pyStrip (pyLower q)).length > 3)
      ∧ ((qs.foldl dedupQueriesStep acc).2.map (fun q => pyStrip (pyLower q))).Nodup := by
  induction qs with
  | nil => intro acc h1 h2; exact ⟨h1, h2⟩
  | cons q rest ih =>
    intro acc h1 h2
    rw [List.foldl_cons]
    by_cases hc : !(acc.1.contains (pyStrip (pyLower q))) && (pyStrip (pyLower q)).length > 3
    · have hstep : dedupQueriesStep acc q =
          (acc.1 ++ [pyStrip (pyLower q)], acc.2 ++ [q]) := by
        simp only [dedupQueriesStep]
        rw [if_pos hc]
      obtain ⟨hnotin, hlen⟩ := Bool.and_eq_true_iff.mp hc
      have hnotin2 : pyStrip (pyLower q) ∉ acc.1 := by
        intro hmem
        have hcont : acc.1.contains (pyStrip (pyLower q)) = true :=
          List.elem_eq_true_of_mem hmem
        rw [hcont] at hnotin
        cases hnotin
      have hlen2 : (pyStrip (pyLower q)).length > 3 := by simpa using hlen
      rw [hstep]
      refine ih _ ?_ ?_
      · intro x hx
        rcases List.mem_append.mp hx with hx1 | hx2
        · obtain ⟨hm, hl⟩ := h1 x hx1
          exact ⟨List.mem_append.mpr (Or.inl hm), hl⟩
        · rcases List.mem_singleton.mp hx2 with rfl
          exact ⟨List.mem_append.mpr (Or.inr (List.mem_singleton.mpr rfl)), hlen2⟩
      · rw [List.map_append, List.map_singleton, List.nodup_append]
        refine ⟨h2, List.nodup_singleton _, ?_⟩
        intro k hk hk2
        rcases List.mem_singleton.mp hk2 with rfl
        obtain ⟨x, hx, hxk⟩ := List.mem_map.mp hk
        exact hnotin2 (hxk ▸ (h1 x hx).1)
    · have hstep : dedupQueriesStep acc q = acc := by
        simp only [dedupQueriesStep]
        rw [if_neg hc]
      rw [hstep]
      exact ih acc h1 h2

/-- C9 (amended): `extract_search_queries` returns between 1 and 3
queries whose lowercased trimmed forms are pairwise distinct; every
query is longer than 3 characters after trimming, unless no candidate
survives the length filter, in which case the single returned query is
the first 200 characters of the trimmed input, which may be empty or
short (the claim's unconditional "each non-empty and longer than 3
characters" does not hold for the fallback). -/
theorem extract_search_queries_spec (post : String) :
    1 ≤ (extractSearchQueries post).length
    ∧ (extractSearchQueries post).length ≤ 3
    ∧ ((extractSearchQueries post).map (fun q => pyStrip (pyLower q))).Nodup
    ∧ ((∀ q ∈ extractSearchQueries post, (pyStrip (pyLower q)).length > 3)
        ∨ extractSearchQueries post = [String.mk ((pyStrip post).data.take 200)]) := by
  have hinv := dedupQueries_foldl_invariant (extractCandidates post) ([], [])
    (by intro q hq; cases hq) List.nodup_nil
  by_cases hd : ((extractCandidates post).foldl dedupQueriesStep ([], [])).2 == []
  · have hres : extractSearchQueries post = [String.mk ((pyStrip post).data.take 200)] := by
      simp only [extractSearchQueries]
      rw [if_pos hd]
    rw [hres]
    exact ⟨by simp, by simp, by simp, Or.inr rfl⟩
  · have hres : extractSearchQueries post =
        ((extractCandidates post).foldl dedupQueriesStep ([], [])).2.take 3 := by
      simp only [extractSearchQueries]
      rw [if_neg hd]
    rw [hres]
    have hne : ((extractCandidates post).foldl dedupQueriesStep ([], [])).2 ≠ [] := by
      intro h
      rw [h] at hd
      exact hd (by decide)
    refine ⟨?_, List.length_take_le 3 _, ?_, Or.inl ?_⟩
    · rcases hx : ((extractCandidates post).foldl dedupQueriesStep ([], [])).2 with _ | ⟨a, as⟩
      · exact absurd hx hne
      · simp [hx]
    · exact hinv.2.sublist ((List.take_sublist 3 _).map _)
    · intro q hq
      exact (hinv.1 q ((List.take_sublist 3 _).subset hq)).2

/-- C9 witness: concrete instances of the bounds. -/
theorem extract_search_queries_spec_witness :
    1 ≤ (extractSearchQueries "hello world").length
    ∧ (extractSearchQueries "hello world").length ≤ 3 :=
  ⟨(extract_search_queries_spec "hello world").1,
    (extract_search_queries_spec "hello world").2.1⟩

/-- C9 counterexample: on the empty input the extractor returns the
single fallback query `""`, which is empty — refuting the claim that
every returned query is non-empty and longer than 3 characters after
trimming. -/
theorem extract_search_queries_empty_input :
    extractSearchQueries "" = [""]
    ∧ "" ∈ extractSearchQueries ""
    ∧ (pyStrip "").length = 0 :=
  ⟨by decide, by decide, by decide⟩

/-! ## Claim C5: cited-or-top-3 source filtering -/

/-- `takeWhile`/`dropWhile` on a digit run followed by a non-digit
split the list exactly at the run's end. -/
theorem takeWhile_digits_eq (x : Char) (hx : ¬(Char.isDigit x = true)) :
    ∀ (ds u : List Char), (∀ c ∈ ds, Char.isDigit c = true) →
      (ds ++ x :: u).takeWhile Char.isDigit = ds
      ∧ (ds ++ x :: u).dropWhile Char.isDigit = x :: u := by
  intro ds
  induction ds with
  | nil =>
    intro u _
    constructor
    · simp only [List.nil_append, List.takeWhile_cons]
      rw [if_neg hx]
    · simp only [List.nil_append, List.dropWhile_cons]
      rw [if_neg hx]
  | cons d ds ih =>
    intro u hall
    have hd := hall d (List.mem_cons_self d ds)
    have hrest : ∀ c ∈ ds, Char.isDigit c = true := fun c hc =>
      hall c (List.mem_cons_of_mem d hc)
    obtain ⟨ht, hdr⟩ := ih u hrest
    constructor
    · simp only [List.cons_append, List.takeWhile_cons]
      rw [if_pos hd, ht]
    · simp only [List.cons_append, List.dropWhile_cons]
      rw [if_pos hd, hdr]

/-- A bracket-headed pattern that is an infix of `pre ++ l` where `pre`
contains no opening bracket is an infix of `l`. -/
theorem infix_bracket_through (t : List Char) :
    ∀ (pre l : List Char), (∀ c ∈ pre, ¬(c = '[')) →
      ('[' :: t <:+: pre ++ l) → ('[' :: t <:+: l) := by
  intro pre
  induction pre with
  | nil => intro l _ h; simpa using h
  | cons x xs ih =>
    intro l hne h
    rw [List.cons_append] at h
    rcases List.infix_cons_iff.mp h with hpre | hinf
    · rcases List.cons_prefix_cons.mp hpre with ⟨heq, _⟩
      exact absurd heq.symm (hne x (List.mem_cons_self x xs))
    · exact ih l (fun c hc => hne c (List.mem_cons_of_mem x hc)) hinf

/-- When the full citation pattern `[ds]` is a prefix of `[ :: rest`,
the digit run at the head of `rest` is exactly `ds` and a closing
bracket follows it. -/
theorem bracket_prefix_decompose (ds rest : List Char)
    (hdig : ∀ c ∈ ds, Char.isDigit c = true)
    (hpre : ('[' :: (ds ++ [']'])) <+: ('[' :: rest)) :
    rest.takeWhile Char.isDigit = ds ∧ ∃ u, rest.dropWhile Char.isDigit = ']' :: u := by
  rcases List.cons_prefix_cons.mp hpre with ⟨_, hpre2⟩
  obtain ⟨u, hu⟩ := hpre2
  have hy : ¬(Char.isDigit ']' = true) := by decide
  have hrest : rest = ds ++ (']' :: u) := by
    rw [← hu, List.append_assoc]
    rfl
  obtain ⟨ht, hd⟩ := takeWhile_digits_eq ']' hy ds u hdig
  rw [hrest]
  exact ⟨ht, u, hd⟩

/-- The numbers collected by the citation scanner are exactly the
values of the well-formed `[digits]` markers occurring in the text. -/
theorem mem_scanCitationsAux_iff (n : Nat) :
    ∀ (fuel : Nat) (l : List Char), l.length ≤ fuel →
      (n ∈ scanCitationsAux fuel l ↔
        ∃ ds : List Char, ds ≠ [] ∧ (∀ c ∈ ds, Char.isDigit c = true) ∧ digitsVal ds = n
          ∧ ('[' :: (ds ++ [']'])) <:+: l) := by
  intro fuel
  induction fuel with
  | zero =>
    intro l hl
    have hnil : l = [] := List.length_eq_zero.mp (Nat.le_zero.mp hl)
    subst hnil
    simp only [scanCitationsAux]
    constructor
    · intro h; cases h
    · rintro ⟨ds, hne, _, _, hinf⟩
      have := hinf.sublist.length_le
      simp at this
  | succ fuel ih =>
    intro l hl
    cases l with
    | nil =>
      simp only [scanCitationsAux]
      constructor
      · intro h; cases h
      · rintro ⟨ds, hne, _, _, hinf⟩
        have := hinf.sublist.length_le
        simp at this
    | cons c rest =>
      have hrest : rest.length ≤ fuel := by
        have := hl
        simp only [List.length_cons] at this
        omega
      by_cases hc : c = '['
      · subst hc
        have hsplit : rest.takeWhile Char.isDigit ++ rest.dropWhile Char.isDigit = rest :=
          List.takeWhile_append_dropWhile Char.isDigit rest
        have hdigits : ∀ c ∈ rest.takeWhile Char.isDigit, Char.isDigit c = true :=
          fun c hc => List.mem_takeWhile_imp hc
        rcases hr0 : rest.dropWhile Char.isDigit with _ | ⟨y, rest2⟩
        · -- no closing bracket candidate at all: the scanner skips the bracket
          have hscan : scanCitationsAux (fuel + 1) ('[' :: rest) =
              scanCitationsAux fuel rest := by
            simp only [scanCitationsAux, beq_self_eq_true, if_pos]
            rw [hr0]
          rw [hscan, ih rest hrest]
          constructor
          · rintro ⟨ds, hne, hdig, hval, hinf⟩
            exact ⟨ds, hne, hdig, hval, List.infix_cons hinf⟩
          · rintro ⟨ds, hne, hdig, hval, hinf⟩
            rcases List.infix_cons_iff.mp hinf with hpre | hinf2
            · obtain ⟨_, u, hu⟩ := bracket_prefix_decompose ds rest hdig hpre
              rw [hu] at hr0
              cases hr0
            · exact ⟨ds, hne, hdig, hval, hinf2⟩
        · by_cases hy : y = ']'
          · subst hy
            rcases hds : rest.takeWhile Char.isDigit with _ | ⟨d, ds1⟩
            · -- empty digit run before the bracket: the scanner skips
              have hscan : scanCitationsAux (fuel + 1) ('[' :: rest) =
                  scanCitationsAux fuel rest := by
                simp only [scanCitationsAux, beq_self_eq_true, if_pos]
                rw [hr0, hds]
                rfl
              rw [hscan, ih rest hrest]
              constructor
              · rintro ⟨ds, hne, hdig, hval, hinf⟩
                exact ⟨ds, hne, hdig, hval, List.infix_cons hinf⟩
              · rintro ⟨ds, hne, hdig, hval, hinf⟩
                rcases List.infix_cons_iff.mp hinf with hpre | hinf2
                · obtain ⟨ht, _⟩ := bracket_prefix_decompose ds rest hdig hpre
                  rw [hds] at ht
                  exact absurd ht.symm hne
                · exact ⟨ds, hne, hdig, hval, hinf2⟩
            · -- a well-formed marker: the scanner records it
              have hdd : ∀ c ∈ d :: ds1, Char.isDigit c = true := by
                rw [← hds]; exact hdigits
              have hrw : rest = (d :: ds1) ++ (']' :: rest2) := by
                rw [← hds, ← hr0]
                exact hsplit.symm
              have hscan : scanCitationsAux (fuel + 1) ('[' :: rest) =
                  digitsVal (d :: ds1) :: scanCitationsAux fuel rest2 := by
                simp only [scanCitationsAux, beq_self_eq_true, if_pos]
                rw [hr0, hds]
                rfl
              have hrest2 : rest2.length ≤ fuel := by
                have h1 : rest.length = (d :: ds1).length + (']' :: rest2).length := by
                  rw [hrw, List.length_append]
                simp only [List.length_cons] at h1
                omega
              rw [hscan]
              constructor
              · intro hmem
                rcases List.mem_cons.mp hmem with hval | hmem2
                · refine ⟨d :: ds1, by simp, hdd, hval.symm, ?_⟩
                  refine List.IsPrefix.isInfix ⟨rest2, ?_⟩
                  rw [hrw, List.cons_append, List.append_assoc, List.singleton_append]
                · obtain ⟨ds, hne, hdig, hval, hinf⟩ := (ih rest2 hrest2).mp hmem2
                  refine ⟨ds, hne, hdig, hval, ?_⟩
                  have hsuf : rest2 <:+ rest := ⟨(d :: ds1) ++ [']'], by
                    rw [hrw, List.append_assoc, List.singleton_append]⟩
                  exact List.infix_cons (hinf.trans hsuf.isInfix)
              · rintro ⟨ds, hne, hdig, hval, hinf⟩
                rcases List.infix_cons_iff.mp hinf with hpre | hinf2
                · obtain ⟨ht, _⟩ := bracket_prefix_decompose ds rest hdig hpre
                  rw [hds] at ht
                  refine List.mem_cons.mpr (Or.inl ?_)
                  rw [ht]
                  exact hval.symm
                · refine List.mem_cons.mpr (Or.inr ((ih rest2 hrest2).mpr
                    ⟨ds, hne, hdig, hval, ?_⟩))
                  rw [hrw] at hinf2
                  refine infix_bracket_through _ ((d :: ds1) ++ [']']) rest2 ?_ ?_
                  · intro x hx
                    rcases List.mem_append.mp hx with hx1 | hx2
                    · have hxd := hdd x hx1
                      intro hxeq
                      rw [hxeq] at hxd
                      cases hxd
                    · rcases List.mem_singleton.mp hx2 with rfl
                      decide
                  · rw [List.append_assoc, List.singleton_append]
                    exact hinf2
          · -- digits not followed by a closing bracket: the scanner skips
            have hscan : scanCitationsAux (fuel + 1) ('[' :: rest) =
                scanCitationsAux fuel rest := by
              simp only [scanCitationsAux, beq_self_eq_true, if_pos]
              rw [hr0]
              split
              · next rest3 heq =>
                exact absurd (List.head_eq_of_cons_eq heq) hy
              · rfl
            rw [hscan, ih rest hrest]
            constructor
            · rintro ⟨ds, hne, hdig, hval, hinf⟩
              exact ⟨ds, hne, hdig, hval, List.infix_cons hinf⟩
            · rintro ⟨ds, hne, hdig, hval, hinf⟩
              rcases List.infix_cons_iff.mp hinf with hpre | hinf2
              · obtain ⟨_, u, hu⟩ := bracket_prefix_decompose ds rest hdig hpre
                rw [hu] at hr0
                cases hr0
                exact absurd rfl hy
              · exact ⟨ds, hne, hdig, hval, hinf2⟩
      · -- not at an opening bracket: the scanner moves on
        have hscan : scanCitationsAux (fuel + 1) (c :: rest) =
            scanCitationsAux fuel rest := by
          simp only [scanCitationsAux]
          rw [if_neg (by simpa using hc)]
        rw [hscan, ih rest hrest]
        constructor
        · rintro ⟨ds, hne, hdig, hval, hinf⟩
          exact ⟨ds, hne, hdig, hval, List.infix_cons hinf⟩
        · rintro ⟨ds, hne, hdig, hval, hinf⟩
          rcases List.infix_cons_iff.mp hinf with hpre | hinf2
          · rcases List.cons_prefix_cons.mp hpre with ⟨heq, _⟩
            exact absurd heq.symm hc
          · exact ⟨ds, hne, hdig, hval, hinf2⟩

/-- An indexed lookup hit is a member of the enumeration (shifted by the
start index). -/
theorem mem_enumFrom_of_getElem? {α : Type} :
    ∀ (xs : List α) (n i : Nat) (x : α), xs[i]? = some x → (n + i, x) ∈ xs.enumFrom n := by
  intro xs
  induction xs with
  | nil => intro n i x h; simp at h
  | cons a l ih =>
    intro n i x h
    cases i with
    | zero =>
      simp only [List.getElem?_cons_zero, Option.some_inj] at h
      subst h
      simp [List.enumFrom]
    | succ i =>
      simp only [List.getElem?_cons_succ] at h
      have := ih (n + 1) i x h
      simp only [List.enumFrom, List.mem_cons]
      right
      have harith : n + (i + 1) = n + 1 + i := by omega
      rw [harith]
      exact this

/-- Every element of an enumeration from `n` has index at least `n`. -/
theorem le_fst_of_mem_enumFrom {α : Type} :
    ∀ (xs : List α) (n : Nat) (p : Nat × α), p ∈ xs.enumFrom n → n ≤ p.1 := by
  intro xs
  induction xs with
  | nil => intro n p h; simp [List.enumFrom] at h
  | cons a l ih =>
    intro n p h
    simp only [List.enumFrom, List.mem_cons] at h
    rcases h with rfl | h
    · exact Nat.le_refl n
    · exact Nat.le_of_succ_le (ih (n + 1) p h)

/-- The indices of an enumeration are strictly increasing. -/
theorem pairwise_fst_lt_enumFrom {α : Type} :
    ∀ (xs : List α) (n : Nat),
      List.Pairwise (fun p q : Nat × α => p.1 < q.1) (xs.enumFrom n) := by
  intro xs
  induction xs with
  | nil => intro n; simp [List.enumFrom]
  | cons a l ih =>
    intro n
    simp only [List.enumFrom]
    refine List.Pairwise.cons ?_ (ih (n + 1))
    intro q hq
    exact Nat.lt_of_succ_le (le_fst_of_mem_enumFrom l (n + 1) q hq)

/-- C5: `_build_sources` includes the `i`-th (1-indexed) result exactly
when `i` is cited in the response text or `i ≤ 3`, preserves the result
order (ids strictly increase), and truncates every snippet to 200
characters; the numbers regarded as cited are exactly the values of the
well-formed `[digits]` markers occurring in the text; and on 5 results
with a response citing only `[2]`, the returned source ids are
`[1, 2, 3]`. -/
theorem build_sources_cited_or_top3 (results : List SearchResult) (text : String) :
    (∀ s, s ∈ buildSources results text ↔
      ∃ idx r, results[idx]? = some r ∧ s = mkSource (idx + 1) r
        ∧ ((idx + 1) ∈ findCitations text ∨ idx + 1 ≤ 3))
    ∧ List.Pairwise (fun a b => a.id < b.id) (buildSources results text)
    ∧ (∀ s ∈ buildSources results text, ∀ t, s.snippet = some t → t.length ≤ 200)
    ∧ (∀ n, n ∈ findCitations text ↔
        ∃ ds : List Char, ds ≠ [] ∧ (∀ c ∈ ds, Char.isDigit c = true) ∧ digitsVal ds = n
          ∧ ('[' :: (ds ++ [']'])) <:+: text.data)
    ∧ (buildSources
        [⟨"t1", "u1", some "s1", none⟩, ⟨"t2", "u2", none, none⟩, ⟨"t3", "u3", some "s3", none⟩,
         ⟨"t4", "u4", some "s4", none⟩, ⟨"t5", "u5", some "s5", none⟩]
        "only [2] cited").map Source.id = [1, 2, 3] := by
  have hmemiff : ∀ s, s ∈ buildSources results text ↔
      ∃ idx r, results[idx]? = some r ∧ s = mkSource (idx + 1) r
        ∧ ((idx + 1) ∈ findCitations text ∨ idx + 1 ≤ 3) := by
    intro s
    simp only [buildSources, List.mem_filterMap]
    constructor
    · rintro ⟨p, hp, hf⟩
      by_cases hcond : (findCitations text).contains (p.1 + 1) || decide (p.1 + 1 ≤ 3)
      · rw [if_pos hcond] at hf
        obtain ⟨hlt, hx⟩ := List.mem_enum hp
        refine ⟨p.1, p.2, ?_, ?_, ?_⟩
        · rw [List.getElem?_eq_some_iff]
          exact ⟨hlt, hx.symm⟩
        · cases hf; rfl
        · rcases Bool.or_eq_true_iff.mp hcond with h1 | h2
          · exact Or.inl (List.mem_of_elem_eq_true h1)
          · exact Or.inr (by simpa using h2)
      · rw [if_neg hcond] at hf
        cases hf
    · rintro ⟨idx, r, hget, hs, hcond⟩
      have hcond2 : ((findCitations text).contains (idx + 1) || decide (idx + 1 ≤ 3)) = true := by
        rcases hcond with h1 | h2
        · exact Bool.or_eq_true_iff.mpr (Or.inl (List.elem_eq_true_of_mem h1))
        · exact Bool.or_eq_true_iff.mpr (Or.inr (by simpa using h2))
      refine ⟨(idx, r), ?_, ?_⟩
      · have := mem_enumFrom_of_getElem? results 0 idx r hget
        simpa [List.enum] using this
      · rw [hcond2]
        simp only [if_pos]
        rw [hs]
  refine ⟨hmemiff, ?_, ?_, ?_, by decide⟩
  · simp only [buildSources]
    rw [List.pairwise_filterMap]
    have hpw : List.Pairwise (fun p q : Nat × SearchResult => p.1 < q.1) results.enum := by
      have := pairwise_fst_lt_enumFrom results 0
      simpa [List.enum] using this
    refine hpw.imp ?_
    intro p q hlt b hb b2 hb2
    have hidb : b.id = p.1 + 1 := by
      by_cases hcond : (findCitations text).contains (p.1 + 1) || decide (p.1 + 1 ≤ 3)
      · rw [if_pos hcond] at hb
        cases hb; rfl
      · rw [if_neg hcond] at hb
        cases hb
    have hidb2 : b2.id = q.1 + 1 := by
      by_cases hcond : (findCitations text).contains (q.1 + 1) || decide (q.1 + 1 ≤ 3)
      · rw [if_pos hcond] at hb2
        cases hb2; rfl
      · rw [if_neg hcond] at hb2
        cases hb2
    rw [hidb, hidb2]
    omega
  · intro s hs t ht
    obtain ⟨idx, r, _, hmk, _⟩ := (hmemiff s).mp hs
    rw [hmk] at ht
    exact truncSnippet_length r.snippet t ht
  · intro n
    exact mem_scanCitationsAux_iff n text.data.length text.data (Nat.le_refl _)

/-- C5 witness: the concrete 5-result instance and a membership
instance extracted through the characterization. -/
theorem build_sources_cited_or_top3_witness :
    (buildSources
        [⟨"t1", "u1", some "s1", none⟩, ⟨"t2", "u2", none, none⟩, ⟨"t3", "u3", some "s3", none⟩,
         ⟨"t4", "u4", some "s4", none⟩, ⟨"t5", "u5", some "s5", none⟩]
        "only [2] cited").map Source.id = [1, 2, 3]
    ∧ (2 ∈ findCitations "only [2] cited" ↔
        ∃ ds : List Char, ds ≠ [] ∧ (∀ c ∈ ds, Char.isDigit c = true) ∧ digitsVal ds = 2
          ∧ ('[' :: (ds ++ [']'])) <:+: ("only [2] cited" : String).data) :=
  ⟨(build_sources_cited_or_top3 [] "").2.2.2.2,
    (build_sources_cited_or_top3 [] "only [2] cited").2.2.2.1 2⟩
